import Mathlib

/-!
Verification development for the Prometheus integration core of the deepflow
server: the schema-evolving ClickHouse sample writer (`dbwriter`), the ID-cache
single-flight refresh (`controller/prometheus/cache`), the remote-read → SQL
translator and its response builder (`querier/app/prometheus/service`), and the
JSON-parameter validator (`controller/common`).

Conventions of the embedding:
* Go strings are Lean `String`s; the Go `strings` helpers used by the source
  are re-implemented over `List Char` so that every definition evaluates
  inside the kernel.
* Go `int`/`int64` are `Int` with Go's truncated division (`Int.tdiv`) and
  remainder (`Int.tmod`); loop indices and lengths are `Nat`.
* A Go runtime panic (out-of-range index, failed type assertion) is an
  explicit `GoPanic` value, kept separate from an `error` return.
* Go `float64` cells are carried opaquely: a float only ever flows from a
  ClickHouse cell to a sample value or through `strconv.FormatFloat`, so it is
  represented by its rendered decimal string.
-/

/-- A Go runtime panic (index out of range, failed type assertion). -/
structure GoPanic where
  msg : String
deriving DecidableEq, Repr

/-- Splits at every occurrence of the non-empty separator `c :: cs`, mirroring
Go `strings.Split` for a non-empty separator; `acc` is the current chunk,
reversed. The structural `fuel` (instantiated with the input length, which the
recursion never exceeds) keeps the definition kernel-reducible. -/
def goSplitCharsAux (c : Char) (cs : List Char) : Nat → List Char → List Char → List (List Char)
  | _, [], acc => [acc.reverse]
  | 0, l, acc => [(acc.reverse ++ l)]
  | fuel + 1, x :: xs, acc =>
    if List.isPrefixOf (c :: cs) (x :: xs) then
      acc.reverse :: goSplitCharsAux c cs fuel (xs.drop cs.length) []
    else
      goSplitCharsAux c cs fuel xs (x :: acc)

/-- Go `strings.Split(s, sep)` for the non-empty separators used by the source
(`"__"`, `"_"`). -/
def goSplit (sep s : String) : List String :=
  match sep.data with
  | [] => [s]
  | c :: cs => (goSplitCharsAux c cs s.data.length s.data []).map String.mk

/-- Go `strings.SplitN(s, sep, 2)`. -/
def goSplitN2 (sep s : String) : List String :=
  match goSplit sep s with
  | p0 :: p1 :: rest => [p0, String.intercalate sep (p1 :: rest)]
  | l => l

/-- Go `strings.HasPrefix`. -/
def goHasPfx (pre s : String) : Bool :=
  List.isPrefixOf pre.data s.data

/-- Go `strings.TrimPrefix`. -/
def goTrimPfx (pre s : String) : String :=
  if goHasPfx pre s then String.mk (s.data.drop pre.data.length) else s

/-- Replaces the first occurrence of the non-empty pattern `c :: cs` by `r`,
mirroring Go `strings.Replace(s, old, new, 1)`. -/
def goReplaceFirstChars (c : Char) (cs r : List Char) : List Char → List Char
  | [] => []
  | x :: xs =>
    if List.isPrefixOf (c :: cs) (x :: xs) then
      r ++ xs.drop cs.length
    else
      x :: goReplaceFirstChars c cs r xs

/-- Go `strings.Replace(s, old, new, 1)` for a non-empty `old`. -/
def goReplaceFirst (old new s : String) : String :=
  match old.data with
  | [] => s
  | c :: cs => String.mk (goReplaceFirstChars c cs new.data s.data)

/-- Replaces every occurrence of the non-empty pattern `c :: cs` by `r`,
mirroring Go `strings.ReplaceAll`; structural `fuel` as in
`goSplitCharsAux`. -/
def goReplaceAllChars (c : Char) (cs r : List Char) : Nat → List Char → List Char
  | _, [] => []
  | 0, l => l
  | fuel + 1, x :: xs =>
    if List.isPrefixOf (c :: cs) (x :: xs) then
      r ++ goReplaceAllChars c cs r fuel (xs.drop cs.length)
    else
      x :: goReplaceAllChars c cs r fuel xs

/-- Go `strings.ReplaceAll(s, old, new)` for a non-empty `old`. -/
def goReplaceAll (old new s : String) : String :=
  match old.data with
  | [] => s
  | c :: cs => String.mk (goReplaceAllChars c cs new.data s.data.length s.data)

/-- Go `strings.Contains(s, sub)` for a non-empty `sub`: equivalent to the
split producing more than one part, which is exactly how the source consumes
the test. -/
def goContains (sub s : String) : Bool :=
  (goSplit sub s).length > 1

/-- Substitution of `"%s"` verbs: `fmt.Sprintf` restricted to the `%s`-only
format strings that the source passes around as `metricAlias`. A missing
argument renders as Go's `"%!s(MISSING)"`. -/
def goSprintfChars : List Char → List String → List Char
  | [], _ => []
  | '%' :: 's' :: rest, [] => "%!s(MISSING)".data ++ goSprintfChars rest []
  | '%' :: 's' :: rest, a :: args => a.data ++ goSprintfChars rest args
  | x :: rest, args => x :: goSprintfChars rest args

/-- `fmt.Sprintf` for a `%s`-only format string. -/
def goSprintf (fmtStr : String) (args : List String) : String :=
  String.mk (goSprintfChars fmtStr.data args)

/-! ### Cluster-aware writer: the process-wide per-width writer array

From `server/ingester/prometheus/dbwriter` (`prometheus_ckwriter.go`):

    var prometheusCKWriters [MAX_APP_LABEL_COLUMN_INDEX]*ckwriter.CKWriter

so the declared array length is `MAX_APP_LABEL_COLUMN_INDEX` itself, while
`getOrCreateCkwriter` admits every `appLabelCount ≤ MAX_APP_LABEL_COLUMN_INDEX`.
A slot is `Option Unit`: `none` models a nil `*ckwriter.CKWriter`. The value of
the constant `MAX_APP_LABEL_COLUMN_INDEX` is defined outside the repository
slice under study, so the model is parametric in it. -/

/-- A slot of the `prometheusCKWriters` array (`none` = nil pointer). -/
def CKWriterSlot : Type := Option Unit

/-- The declared length of `prometheusCKWriters`:
`[MAX_APP_LABEL_COLUMN_INDEX]*ckwriter.CKWriter`. -/
def prometheusCKWritersSize (maxAppLabelColumnIndex : Nat) : Nat :=
  maxAppLabelColumnIndex

/-- `getPrometheusCKWriters`: reads `prometheusCKWriters[columnCount]`; a Go
array access out of range panics. -/
def getPrometheusCKWriters (arr : List CKWriterSlot) (columnCount : Nat) :
    Except GoPanic CKWriterSlot :=
  if h : columnCount < arr.length then .ok (arr.get ⟨columnCount, h⟩)
  else .error ⟨"runtime error: index out of range"⟩

/-- `setPrometheusCKWriters`: writes `prometheusCKWriters[columnCount] = w`. -/
def setPrometheusCKWriters (arr : List CKWriterSlot) (columnCount : Nat)
    (w : CKWriterSlot) : Except GoPanic (List CKWriterSlot) :=
  if columnCount < arr.length then .ok (arr.set columnCount w)
  else .error ⟨"runtime error: index out of range"⟩

/-- The guard-and-lookup head of `PrometheusWriter.getOrCreateCkwriter`: the
two explicit error returns on the sample's `AppLabelValueIDs` length, then the
first (lock-free) read of the shared writer array at index `appLabelCount`.
Everything after the lookup (creation, `setPrometheusCKWriters`) stores at the
same index, so the lookup's bound already decides the claim. -/
def getOrCreateCkwriter (maxAppLabelColumnIndex : Nat) (arr : List CKWriterSlot)
    (appLabelValueIDsLen : Nat) : Except GoPanic (Except String CKWriterSlot) :=
  if appLabelValueIDsLen = 0 then
    .ok (.error "AppLabelValueIDs is empty")
  else
    let appLabelCount := appLabelValueIDsLen - 1
    if appLabelCount > maxAppLabelColumnIndex then
      .ok (.error "the length of AppLabelValueIDs is > MAX_APP_LABEL_COLUMN_INDEX")
    else
      match getPrometheusCKWriters arr appLabelCount with
      | .error p => .error p
      | .ok w => .ok (.ok w)

/-- The spec's precondition on a sample admitted by `WriteBatch`:
`len(AppLabelValueIDs) ≥ 1` and `appLabelCount = len − 1 ≤ MAX_APP_LABEL`. -/
def writeBatchPrecondition (maxAppLabelColumnIndex appLabelValueIDsLen : Nat) : Prop :=
  1 ≤ appLabelValueIDsLen ∧ appLabelValueIDsLen - 1 ≤ maxAppLabelColumnIndex

instance (m l : Nat) : Decidable (writeBatchPrecondition m l) := by
  unfold writeBatchPrecondition
  infer_instance

/-- Program counter of one goroutine executing `Cache.tryRefresh`. -/
inductive RefreshPC where
  | waiting
  | critical
  | done
deriving DecidableEq, Repr

/-- One goroutine: its position in `tryRefresh` and how many times it has
entered `refresh()`. -/
structure RefreshThread where
  pc : RefreshPC
  runs : Nat
deriving DecidableEq, Repr

/-- Global state: whether the 1-slot channel `canRefresh` currently holds the
token, and all goroutines. -/
structure RefreshSys where
  token : Bool
  threads : List RefreshThread
deriving DecidableEq, Repr

/-- The state after `Cache.Start` has sent the initial token and `n`
`tryRefresh()` calls have been scheduled. -/
def refreshInit (n : Nat) : RefreshSys :=
  ⟨true, List.replicate n ⟨.waiting, 0⟩⟩

/-- Interleaving semantics of `tryRefresh`: one goroutine moves per step.
`acquire` is the `case <-c.canRefresh` arm entering `refresh()`; `pollFail` is
the `default` arm (sleep and retry) when the channel is empty; `release` is
`c.canRefresh <- true; break LOOP` after `refresh()` returns. -/
inductive RefreshStep : RefreshSys → RefreshSys → Prop where
  | acquire (pre post : List RefreshThread) (r : Nat) :
      RefreshStep ⟨true, pre ++ ⟨.waiting, r⟩ :: post⟩
        ⟨false, pre ++ ⟨.critical, r + 1⟩ :: post⟩
  | pollFail (pre post : List RefreshThread) (r : Nat) :
      RefreshStep ⟨false, pre ++ ⟨.waiting, r⟩ :: post⟩
        ⟨false, pre ++ ⟨.waiting, r⟩ :: post⟩
  | release (tok : Bool) (pre post : List RefreshThread) (r : Nat) :
      RefreshStep ⟨tok, pre ++ ⟨.critical, r⟩ :: post⟩
        ⟨true, pre ++ ⟨.done, r⟩ :: post⟩

/-- Number of goroutines of `l` currently inside `refresh()`. -/
def criticalCountL (l : List RefreshThread) : Nat :=
  (l.filter (fun t => t.pc == .critical)).length

/-- Number of goroutines of the system currently inside `refresh()`. -/
def criticalCount (s : RefreshSys) : Nat :=
  criticalCountL s.threads

/-- The inductive invariant: the token and the critical sections are two forms
of the same unique resource, and a goroutine's `runs` counter is fixed by its
program counter. -/
def RefreshInv (s : RefreshSys) : Prop :=
  criticalCount s + (if s.token then 1 else 0) = 1 ∧
  ∀ t ∈ s.threads,
    (t.pc = .waiting → t.runs = 0) ∧ (t.pc = .critical → t.runs = 1) ∧
    (t.pc = .done → t.runs = 1)

/-- Number of goroutines of `l` still waiting at the `select`. -/
def waitingCountL (l : List RefreshThread) : Nat :=
  (l.filter (fun t => t.pc == .waiting)).length

/-- The `app_label_value_id_*` columns of `prometheus.samples_local` and
`prometheus.samples`, in creation order. -/
structure CKCatalog where
  localCols : List Nat
  distCols : List Nat
deriving DecidableEq, Repr

/-- `conn.Exec("ALTER TABLE … ADD COLUMN app_label_value_id_i UInt32")` against
one table: the already-exists error when the column is present, else the
catalog with the column appended. -/
def alterAddColumn (cols : List Nat) (i : Nat) : Except String (List Nat) :=
  if i ∈ cols then .error "code: 44, message: cannot add column: column with this name already exists"
  else .ok (cols ++ [i])

/-- One iteration of `addAppLabelColumns`' inner loop for table `cols`:
an error whose text contains "column with this name already exists" is logged
and treated as success, any other error aborts. -/
def addColumnTolerant (cols : List Nat) (i : Nat) : Except String (List Nat) :=
  match alterAddColumn cols i with
  | .ok cols' => .ok cols'
  | .error e =>
    if goContains "column with this name already exists" e then .ok cols
    else .error e

/-- `PrometheusWriter.addAppLabelColumns(conn, startIndex, endIndex)`:
`for i := startIndex; i <= endIndex; i++` over both tables
(`samples_local` first, then `samples`), also returning the list of
`(table, column index)` pairs of the issued ALTER statements. The structural
`fuel` is the loop's iteration count. -/
def addAppLabelColumnsLoop (fuel : Nat) (cat : CKCatalog) (i endIndex : Nat) :
    Except String (CKCatalog × List (String × Nat)) :=
  match fuel with
  | 0 => .ok (cat, [])
  | fuel + 1 =>
    if i ≤ endIndex then
      match addColumnTolerant cat.localCols i with
      | .error e => .error e
      | .ok lc =>
        match addColumnTolerant cat.distCols i with
        | .error e => .error e
        | .ok dc =>
          match addAppLabelColumnsLoop fuel ⟨lc, dc⟩ (i + 1) endIndex with
          | .error e => .error e
          | .ok (cat', log) =>
            .ok (cat', ("samples_local", i) :: ("samples", i) :: log)
    else .ok (cat, [])

/-- `PrometheusWriter.addAppLabelColumns`. -/
def addAppLabelColumns (cat : CKCatalog) (startIndex endIndex : Nat) :
    Except String (CKCatalog × List (String × Nat)) :=
  addAppLabelColumnsLoop (endIndex + 1 - startIndex) cat startIndex endIndex

/-- `PrometheusWriter.getCurrentAppLabelColumnCount`:
`SELECT count(0) FROM system.columns WHERE database='prometheus' AND
table='samples' AND name like '%app_label_value%'` — every column in
`distCols` matches the pattern. -/
def getCurrentAppLabelColumnCount (cat : CKCatalog) : Nat :=
  cat.distCols.length

/-- The process state seen by the widening path: the set of widths whose
writer handle is already published, and the catalog. -/
structure WriterState where
  writers : List Nat
  cat : CKCatalog
deriving DecidableEq, Repr

/-- The schema-evolution effect of one `WriteBatch` (via
`getOrCreateCkwriter`) at app-label width `appLabelCount`: a published writer
short-circuits; otherwise the catalog count is read and, if smaller than the
width, `addAppLabelColumns(conn, K_cur+1, width)` runs and the writer is
published. Also returns the ALTER statements issued. -/
def writerStep (st : WriterState) (appLabelCount : Nat) :
    Except String (WriterState × List (String × Nat)) :=
  if appLabelCount ∈ st.writers then .ok (st, [])
  else
    let currentCount := getCurrentAppLabelColumnCount st.cat
    if currentCount < appLabelCount then
      match addAppLabelColumns st.cat (currentCount + 1) appLabelCount with
      | .error e => .error e
      | .ok (cat', log) => .ok (⟨appLabelCount :: st.writers, cat'⟩, log)
    else .ok (⟨appLabelCount :: st.writers, st.cat⟩, [])

/-- Folding a sequence of `WriteBatch` widths through `writerStep`
(discarding the ALTER logs). -/
def writerRun (st : WriterState) (widths : List Nat) : Except String WriterState :=
  match widths with
  | [] => .ok st
  | w :: ws =>
    match writerStep st w with
    | .error e => .error e
    | .ok (st', _) => writerRun st' ws

/-- A catalog in which both tables carry exactly the app-label columns
`app_label_value_id_1 … app_label_value_id_k`, in order — the shape
`GenCKTable` creates and `addAppLabelColumns` preserves. -/
def prefixCatalog (k : Nat) : CKCatalog :=
  ⟨List.range' 1 k, List.range' 1 k⟩

/-- The ALTER statements `addAppLabelColumns(conn, k+1, w)` issues: columns
`k+1 … w`, each on `samples_local` then `samples`. -/
def alterLog (k w : Nat) : List (String × Nat) :=
  (List.range' (k + 1) (w - k)).flatMap fun i => [("samples_local", i), ("samples", i)]

def PROMETHEUS_METRICS_NAME : String := "__name__"

def EXT_METRICS_NATIVE_TAG_NAME : String := "tag"

def EXT_METRICS_TIME_COLUMNS : String := "timestamp"

/-- Modelled from the spec: the ext_metrics database name of `chCommon`. -/
def DB_NAME_EXT_METRICS : String := "ext_metrics"

/-- Modelled from the spec: the deepflow-system database name. -/
def DB_NAME_DEEPFLOW_SYSTEM : String := "deepflow_system"

/-- Modelled from the spec: the prometheus database name of `chCommon`. -/
def DB_NAME_PROMETHEUS : String := "prometheus"

/-- Modelled from the spec: the flow-log database name of `chCommon`. -/
def DB_NAME_FLOW_LOG : String := "flow_log"

/-- Modelled from the spec: the flow-metrics database name of `chCommon`. -/
def DB_NAME_FLOW_METRICS : String := "flow_metrics"

/-- Modelled from the spec: the keys of `chCommon.DB_TABLE_MAP` — the
supported routing databases (a flow-log db, a flow-metrics db, ext_metrics,
deepflow-system and prometheus). -/
def DB_TABLE_MAP_KEYS : List String :=
  [DB_NAME_FLOW_LOG, DB_NAME_FLOW_METRICS, DB_NAME_EXT_METRICS,
   DB_NAME_DEEPFLOW_SYSTEM, DB_NAME_PROMETHEUS]

/-- Modelled from the spec: `view.FUNCTION_SUM` ("sum→Sum"). -/
def FUNCTION_SUM : String := "Sum"

/-- Modelled from the spec: `view.FUNCTION_AVG` ("avg→Avg"). -/
def FUNCTION_AVG : String := "Avg"

/-- Modelled from the spec: `view.FUNCTION_COUNT` ("count_values→Count"). -/
def FUNCTION_COUNT : String := "Count"

/-- Modelled from the spec: `view.FUNCTION_MIN` ("min→Min"). -/
def FUNCTION_MIN : String := "Min"

/-- Modelled from the spec: `view.FUNCTION_MAX` ("max→Max"). -/
def FUNCTION_MAX : String := "Max"

/-- Modelled from the spec: `view.FUNCTION_STDDEV` ("stddev→Stddev"). -/
def FUNCTION_STDDEV : String := "Stddev"

/-- The `aggFunctions` map as a total lookup: a missing key yields Go's zero
value `""`, exactly like the explicit `"" // not supported` entries for
stdvar, topk, bottomk and quantile. -/
def aggFunctions (f : String) : String :=
  if f == "sum" then FUNCTION_SUM
  else if f == "avg" then FUNCTION_AVG
  else if f == "count" then FUNCTION_COUNT
  else if f == "min" then FUNCTION_MIN
  else if f == "max" then FUNCTION_MAX
  else if f == "group" then "1"
  else if f == "stddev" then FUNCTION_STDDEV
  else if f == "count_values" then FUNCTION_COUNT
  else ""

/-- `prompb.LabelMatcher_Type`: the four matcher types of the remote-read
protocol. -/
inductive LabelMatcherType where
  | eq
  | neq
  | re
  | nre
deriving DecidableEq, Repr

/-- `getLabelMatcherType`. -/
def getLabelMatcherType : LabelMatcherType → String
  | .eq => "="
  | .neq => "!="
  | .re => "REGEXP"
  | .nre => "NOT REGEXP"

structure LabelMatcher where
  name : String
  value : String
  type : LabelMatcherType
deriving DecidableEq, Repr

/-- `storage.SelectHints` as carried by `prompb.Query.Hints`. -/
structure ReadHints where
  startMs : Int
  endMs : Int
  stepMs : Int
  func : String
  grouping : List String
  By : Bool
deriving DecidableEq, Repr

structure PrompbQuery where
  startTimestampMs : Int
  endTimestampMs : Int
  matchers : List LabelMatcher
  hints : ReadHints
deriving DecidableEq, Repr

structure ReadRequest where
  queries : List PrompbQuery
deriving DecidableEq, Repr

/-- The tag-name prefix mode the translator stores into the context
(`prefixNone` / `prefixDeepFlow` / `prefixTag`). -/
inductive PrefixKind where
  | prefixNone
  | prefixDeepFlow
  | prefixTag
deriving DecidableEq, Repr

/-- `matcherRules`: prom-tag → native-tag conversion prefixes. -/
def matcherRules : List (String × String) :=
  [("k8s_label_", "k8s.label."), ("cloud_tag_", "cloud.tag.")]

/-- `convertToQuerierAllowedTagName`: the first matching rule rewrites the
prefix (the two rule prefixes are mutually exclusive, so Go's map-iteration
order does not matter). -/
def convertToQuerierAllowedTagName (matcherName : String) : String :=
  match matcherRules.find? (fun r => goHasPfx r.1 matcherName) with
  | some r => goReplaceFirst r.1 r.2 matcherName
  | none => matcherName

/-- Querier configuration consumed by the translator
(`config.Cfg.Limit`, `config.Cfg.Prometheus.*`). -/
structure PromQuerierConfig where
  limit : String
  autoTaggingPrefix : String
  requestQueryWithDebug : Bool
  seriesLimit : Nat
deriving DecidableEq, Repr

/-- `removeDeepFlowPrefix`. -/
def removeDeepFlowPrefix (cfg : PromQuerierConfig) (tag : String) : String :=
  goTrimPfx cfg.autoTaggingPrefix tag

/-- `removeTagPrefix`. -/
def removeTagPrefix (tag : String) : String :=
  goReplaceFirst "tag_" "" tag

/-- `appendDeepFlowPrefix`. -/
def appendDeepFlowPrefix (cfg : PromQuerierConfig) (tag : String) : String :=
  cfg.autoTaggingPrefix ++ tag

/-- `appendPrometheusPrefix`. -/
def appendPrometheusPrefix (tag : String) : String :=
  "tag_" ++ tag

/-- `formatTagName`: `.`/`-`/`/` become `_`. -/
def formatTagName (tagName : String) : String :=
  goReplaceAll "/" "_" (goReplaceAll "-" "_" (goReplaceAll "." "_" tagName))

/-- The six named results of `parseMetric` plus its error. -/
structure ParseMetricOut where
  prefixType : PrefixKind
  metricName : String
  db : String
  table : String
  dataPrecision : String
  metricAlias : String
  err : Option String
deriving DecidableEq, Repr

/-- `parseMetric`: routing of the `__name__` matcher's value. A composite
value `db__table__metric[__precision]` with fewer than three parts panics in
Go at `metricsSplit[2]`; the panic is the explicit `GoPanic` result. -/
def parseMetric (matchers : List LabelMatcher) : Except GoPanic ParseMetricOut :=
  match matchers.find? (fun m => m.name == PROMETHEUS_METRICS_NAME) with
  | none => .ok ⟨.prefixNone, "", "", "", "", "", none⟩
  | some m =>
    let metricName := m.value
    if goContains "__" metricName then
      let metricsSplit := goSplit "__" metricName
      match metricsSplit.get? 0 with
      | none => .error ⟨"runtime error: index out of range"⟩
      | some p0 =>
        if DB_TABLE_MAP_KEYS.contains p0 then
          match metricsSplit.get? 1, metricsSplit.get? 2 with
          | some p1, some p2 =>
            let db := p0
            let dataPrecision := if metricsSplit.length > 3 then metricsSplit.getD 3 "" else ""
            if db == DB_NAME_DEEPFLOW_SYSTEM then
              .ok ⟨.prefixNone, p2, db, p1, dataPrecision, "metrics.%s", none⟩
            else if db == DB_NAME_EXT_METRICS then
              let realMetrics := goSplitN2 "_" p2
              if realMetrics.length > 1 then
                .ok ⟨.prefixTag, realMetrics.getD 1 "", db,
                  realMetrics.getD 0 "" ++ "." ++ realMetrics.getD 1 "",
                  dataPrecision, "metrics.%s", none⟩
              else
                .ok ⟨.prefixTag, p2, db, p1, dataPrecision, "metrics.%s", none⟩
            else if db == DB_NAME_PROMETHEUS then
              .ok ⟨.prefixTag, p2, db, p2, dataPrecision, "value as `metrics.%s`", none⟩
            else
              .ok ⟨.prefixNone, p2, db, p1, dataPrecision, "%s as `metrics.%s`", none⟩
          | _, _ => .error ⟨"runtime error: index out of range"⟩
        else
          .ok ⟨.prefixNone, "", "", "", "", "", some ("unknown metrics " ++ metricName)⟩
    else
      .ok ⟨.prefixDeepFlow, metricName, "", metricName, "", "value as `metrics.%s`", none⟩

/-- The db is a DeepFlow-native metrics db: not ext_metrics, deepflow-system,
prometheus or empty — the condition guarding the aggregation section. -/
def isNativeMetricsDb (db : String) : Bool :=
  db != DB_NAME_EXT_METRICS && db != DB_NAME_DEEPFLOW_SYSTEM &&
  db != DB_NAME_PROMETHEUS && db != ""

/-- The default time projection `toUnixTimestamp(time) AS timestamp`. -/
def unixTimeExpr : String :=
  "toUnixTimestamp(time) AS " ++ EXT_METRICS_TIME_COLUMNS

/-- The step-aligned time projection `time(time, StepMs/1000) AS timestamp`
(Go integer division). -/
def stepTimeExpr (stepMs : Int) : String :=
  "time(time, " ++ toString (Int.tdiv stepMs 1000) ++ ") AS " ++ EXT_METRICS_TIME_COLUMNS

/-- The time projection chosen inside the aggregation section. -/
def aggTimeExpr (hints : ReadHints) : String :=
  if hints.stepMs > 0 then stepTimeExpr hints.stepMs else unixTimeExpr

/-- The grouping labels, backquoted and converted, appended to both the
projection and the GROUP BY list. -/
def aggLabels (hints : ReadHints) : List String :=
  hints.grouping.map (fun g => "`" ++ convertToQuerierAllowedTagName g ++ "`")

/-- The aggregation section of `promReaderTransToSQL` (the body of the
`db` native branch, lines building `groupBy` and `metricWithAggFunc`):
returns the updated metrics projection, the GROUP BY list and
`metricWithAggFunc`, or the error that aborts the translation. -/
def aggSection (db metricName : String) (hints : ReadHints) :
    Except String (List String × List String × String) :=
  if hints.grouping.isEmpty then
    .error "unknown series"
  else if !hints.By then
    .error "not support for 'without' clause for aggregation"
  else if aggFunctions hints.func == "" then
    .error ("aggregation operator: " ++ hints.func ++ " is not supported yet")
  else
    -- (Go binds `aggOperator := aggFunctions[q.Hints.Func]` once; it is
    -- inlined here, and so are the branch-local slices.)
    if aggFunctions hints.func == FUNCTION_SUM || aggFunctions hints.func == FUNCTION_AVG ||
        aggFunctions hints.func == FUNCTION_MIN || aggFunctions hints.func == FUNCTION_MAX ||
        aggFunctions hints.func == FUNCTION_STDDEV then
      .ok (aggTimeExpr hints :: aggLabels hints,
           EXT_METRICS_TIME_COLUMNS :: aggLabels hints,
           aggFunctions hints.func ++ "(`" ++ metricName ++ "`)")
    else if aggFunctions hints.func == "1" then
      .ok (aggTimeExpr hints :: aggLabels hints,
           EXT_METRICS_TIME_COLUMNS :: aggLabels hints, "1")
    else if aggFunctions hints.func == FUNCTION_COUNT then
      if db != DB_NAME_FLOW_LOG then
        .error "only supported Count for flow_log"
      else if hints.func == "count_values" then
        .ok ((aggTimeExpr hints :: aggLabels hints) ++ ["`" ++ metricName ++ "`"],
             (EXT_METRICS_TIME_COLUMNS :: aggLabels hints) ++ ["`" ++ metricName ++ "`"],
             "Sum(`log_count`)")
      else
        .ok (aggTimeExpr hints :: aggLabels hints,
             EXT_METRICS_TIME_COLUMNS :: aggLabels hints, "Sum(`log_count`)")
    else
      .ok (aggTimeExpr hints :: aggLabels hints,
           EXT_METRICS_TIME_COLUMNS :: aggLabels hints, "")

/-- The matcher loop of `promReaderTransToSQL` (everything after the time
filter): per non-`__name__` matcher, the WHERE clause it contributes and the
columns it may add to the projection, in source order. With the four-valued
`LabelMatcherType`, `getLabelMatcherType` never returns `""`, so the
unknown-match-type error branch is unreachable. -/
def matcherLoop (cfg : PromQuerierConfig) (db : String) :
    List LabelMatcher → (List String × List String)
  | [] => ([], [])
  | m :: rest =>
    if m.name == PROMETHEUS_METRICS_NAME then matcherLoop cfg db rest
    else
      let operation := getLabelMatcherType m.type
      let (fs, ms) := matcherLoop cfg db rest
      if db == "" || db == DB_NAME_DEEPFLOW_SYSTEM then
        if goHasPfx cfg.autoTaggingPrefix m.name then
          let tagName := convertToQuerierAllowedTagName (removeDeepFlowPrefix cfg m.name)
          (("`" ++ tagName ++ "` " ++ operation ++ " '" ++ m.value ++ "'") :: fs,
           if cfg.requestQueryWithDebug then tagName :: ms else ms)
        else
          (("`tag." ++ m.name ++ "` " ++ operation ++ " '" ++ m.value ++ "'") :: fs,
           ("`tag." ++ m.name ++ "`") :: ms)
      else
        if goHasPfx "tag_" m.name then
          let tagName := removeTagPrefix m.name
          (("`tag." ++ tagName ++ "` " ++ operation ++ " '" ++ m.value ++ "'") :: fs,
           if cfg.requestQueryWithDebug then ("`tag." ++ tagName ++ "`") :: ms else ms)
        else
          let tagName := convertToQuerierAllowedTagName m.name
          (("`" ++ tagName ++ "` " ++ operation ++ " '" ++ m.value ++ "'") :: fs, ms)

/-- What `promReaderTransToSQL` returns to its caller: the SQL, the routing
db, the data precision, the context's tag-prefix mode, and the `error`. -/
structure TransOut where
  prefixType : PrefixKind
  sql : String
  db : String
  dataPrecision : String
  err : Option String
deriving DecidableEq, Repr

/-- The assembled inputs of `parseToQuerierSQL` on the success path. -/
structure PromSQLBuild where
  prefixType : PrefixKind
  db : String
  table : String
  dataPrecision : String
  metricsArray : List String
  filters : List String
  groupBy : List String
deriving DecidableEq, Repr

/-- `parseToQuerierSQL`: the final SQL string. Both branches end in
`ORDER BY timestamp desc LIMIT <config.limit>`; the non-empty-db branch
additionally writes the optional GROUP BY clause between the WHERE clause and
the ORDER BY suffix, exactly as the Go `strings.Builder` does. -/
def parseToQuerierSQL (db table : String) (metrics filters groupBy : List String)
    (limit : String) : String :=
  if db != "" then
    ("SELECT " ++ String.intercalate "," metrics ++ " FROM " ++ table ++
      " WHERE " ++ String.intercalate " AND " filters ++ " " ++
      (if groupBy.length > 0 then "GROUP BY " ++ String.intercalate "," groupBy else "")) ++
    (" ORDER BY " ++ EXT_METRICS_TIME_COLUMNS ++ " desc LIMIT " ++ limit)
  else
    ("SELECT " ++ String.intercalate "," metrics ++ " FROM " ++ table ++
      " WHERE " ++ String.intercalate " AND " filters) ++
    (" ORDER BY " ++ EXT_METRICS_TIME_COLUMNS ++ " desc LIMIT " ++ limit)

/-- `promReaderTransToSQL` up to (but excluding) the final
`parseToQuerierSQL` call: either an early return (`Except.error` inside
`Except.ok`) or the assembled SQL inputs. `acquire` is
`QPSLeakyBucket.Acquire`, `showTagFlag` the `CtxKeyShowTag` context value and
`showTagsResult` the external `showTags` catalog call's result. -/
def promReaderBuild (cfg : PromQuerierConfig) (acquire : Nat → Bool)
    (showTagFlag : Bool) (showTagsResult : Except String (List String))
    (req : ReadRequest) : Except GoPanic (Except TransOut PromSQLBuild) :=
  if !(acquire 1000) then
    .ok (.error ⟨.prefixNone, "", "", "", some "Prometheus query rate exceeded!"⟩)
  else
    match req.queries with
    | [] =>
      .ok (.error ⟨.prefixNone, "", "", "",
        some "len(req.Queries) == 0, this feature is not yet implemented!"⟩)
    | q :: _ =>
      let startTime := Int.tdiv q.hints.startMs 1000
      let endTime :=
        if Int.tmod q.endTimestampMs 1000 > 0 then Int.tdiv q.hints.endMs 1000 + 1
        else Int.tdiv q.hints.endMs 1000
      match parseMetric q.matchers with
      | .error p => .error p
      | .ok pm =>
        match pm.err with
        | some e => .ok (.error ⟨pm.prefixType, "", "", "", some e⟩)
        | none =>
          let sectionResult :
              Except String (List String × List String × String) :=
            if showTagFlag then
              match showTagsResult with
              | .error e => .error e
              | .ok tagsArray => .ok (unixTimeExpr :: tagsArray, [], "")
            else if isNativeMetricsDb pm.db then
              aggSection pm.db pm.metricName q.hints
            else
              .ok ([unixTimeExpr], [], "")
          match sectionResult with
          | .error e => .ok (.error ⟨pm.prefixType, "", "", "", some e⟩)
          | .ok (metricsArray0, groupBy, metricWithAggFunc) =>
            let metricsArray1 :=
              if pm.db == "" || pm.db == DB_NAME_EXT_METRICS ||
                  pm.db == DB_NAME_DEEPFLOW_SYSTEM || pm.db == DB_NAME_PROMETHEUS then
                metricsArray0 ++ [goSprintf pm.metricAlias [pm.metricName],
                  "`" ++ EXT_METRICS_NATIVE_TAG_NAME ++ "`"]
              else if metricWithAggFunc != "" then
                metricsArray0 ++ [goSprintf pm.metricAlias [metricWithAggFunc, pm.metricName]]
              else
                metricsArray0 ++ [goSprintf pm.metricAlias [pm.metricName, pm.metricName]]
            let loopResult := matcherLoop cfg pm.db q.matchers
            let filters :=
              ("(time >= " ++ toString startTime ++ " AND time <= " ++
                toString endTime ++ ")") :: loopResult.1
            .ok (.ok ⟨pm.prefixType, pm.db, pm.table, pm.dataPrecision,
              metricsArray1 ++ loopResult.2, filters, groupBy⟩)

/-- `promReaderTransToSQL`. -/
def promReaderTransToSQL (cfg : PromQuerierConfig) (acquire : Nat → Bool)
    (showTagFlag : Bool) (showTagsResult : Except String (List String))
    (req : ReadRequest) : Except GoPanic TransOut :=
  match promReaderBuild cfg acquire showTagFlag showTagsResult req with
  | .error p => .error p
  | .ok (.error t) => .ok t
  | .ok (.ok b) =>
    .ok ⟨b.prefixType,
      parseToQuerierSQL b.db b.table b.metricsArray b.filters b.groupBy cfg.limit,
      b.db, b.dataPrecision, none⟩

/-- The query of the spec's scenario S3 (stdvar over a flow-metrics table),
used as concrete witness input. -/
def s3Query : PrompbQuery :=
  ⟨1700000000000, 1700000600000,
    [⟨"__name__", "flow_metrics__vtap_flow_port__byte_rx__1m", .eq⟩],
    ⟨1700000000000, 1700000600000, 60000, "stdvar", ["pod"], true⟩⟩

/-- `parseMetric`'s result on S3's matchers. -/
def s3ParseOut : ParseMetricOut :=
  ⟨.prefixNone, "byte_rx", "flow_metrics", "vtap_flow_port", "1m",
    "%s as `metrics.%s`", none⟩

/-- The query of the spec's scenario S2 (composite range query with sum
aggregation), used as concrete witness input. -/
def s2Query : PrompbQuery :=
  ⟨1700000000000, 1700000600000,
    [⟨"__name__", "flow_metrics__vtap_flow_port__byte_rx__1m", .eq⟩,
     ⟨"region", "cn", .eq⟩],
    ⟨1700000000000, 1700000600000, 60000, "sum", ["pod"], true⟩⟩

/-- `parseMetric`'s result on S2's matchers. -/
def s2ParseOut : ParseMetricOut :=
  ⟨.prefixNone, "byte_rx", "flow_metrics", "vtap_flow_port", "1m",
    "%s as `metrics.%s`", none⟩

/-- The SQL inputs the translator assembles for S2. -/
def s2Build : PromSQLBuild :=
  ⟨.prefixNone, "flow_metrics", "vtap_flow_port", "1m",
   ["time(time, 60) AS timestamp", "`pod`", "Sum(`byte_rx`) as `metrics.byte_rx`"],
   ["(time >= 1700000000 AND time <= 1700000600)", "`region` = 'cn'"],
   ["timestamp", "`pod`"]⟩

/-- One cell of a querier result row. -/
inductive CellValue where
  | null
  | int (i : Int)
  | flt (renderedFloat : String)
  | str (s : String)
  | timeV (rendered : String)
deriving DecidableEq, Repr

/-- `getValue`. -/
def getValue : CellValue → String
  | .int i => toString i
  | .flt r => r
  | .timeV r => r
  | .null => ""
  | .str s => s

/-- `isZero`: zero values are `0`, `""`, `"{}"` and nil. -/
def isZero : CellValue → Bool
  | .str s => s == "" || s == "\x7b\x7d"
  | .int i => i == 0
  | .null => true
  | _ => false

/-- `%v` rendering used in the unknown-metrics-type error message. -/
def goVerbV : CellValue → String
  | .null => "<nil>"
  | .int i => toString i
  | .flt r => r
  | .str s => s
  | .timeV r => r

/-- The querier's `common.Result`: column names, per-column value types
(`Schemas[i].ValueType`) and rows. -/
structure QuerierResult where
  columns : List String
  schemas : List String
  values : List (List CellValue)
deriving DecidableEq, Repr

/-- The indices the first classification loop of `respTransToProm` extracts
(`-1` = not found, later assignments overwrite earlier ones). -/
structure ColumnClass where
  tagIndex : Int
  metricsIndex : Int
  timeIndex : Int
  metricsName : String
  tagsFieldIndex : List Nat
  otherTagCount : Nat
deriving DecidableEq, Repr

def classifyColumnsAux (i : Nat) (acc : ColumnClass) : List String → ColumnClass
  | [] => acc
  | tag :: rest =>
    let acc' :=
      if tag == EXT_METRICS_NATIVE_TAG_NAME then
        { acc with tagIndex := Int.ofNat i }
      else if goHasPfx "tag." tag then
        { acc with tagsFieldIndex := acc.tagsFieldIndex ++ [i] }
      else if goHasPfx "metrics." tag then
        { acc with metricsIndex := Int.ofNat i, metricsName := goTrimPfx "metrics." tag }
      else if tag == EXT_METRICS_TIME_COLUMNS then
        { acc with timeIndex := Int.ofNat i }
      else
        { acc with otherTagCount := acc.otherTagCount + 1 }
    classifyColumnsAux (i + 1) acc' rest

/-- The first loop of `respTransToProm` over `result.Columns`. -/
def classifyColumns (cols : List String) : ColumnClass :=
  classifyColumnsAux 0 ⟨-1, -1, -1, "", [], 0⟩ cols

/-- The second loop: the column indices that are deepflow native tags (not
the `tag` JSON column, not the metric, not the timestamp, not a `tag.`
field). -/
def allDeepFlowNativeTags (cc : ColumnClass) (columnCount : Nat) : List Nat :=
  (List.range columnCount).filter fun i =>
    !(Int.ofNat i == cc.tagIndex) && !(Int.ofNat i == cc.metricsIndex) &&
    !(Int.ofNat i == cc.timeIndex) && !(cc.tagsFieldIndex.contains i)

/-- Go slice indexing `row[i]` with its panic. -/
def cellAt (row : List CellValue) (i : Nat) : Except GoPanic CellValue :=
  match row.get? i with
  | some c => .ok c
  | none => .error ⟨"runtime error: index out of range"⟩

/-- Go type assertion `.(string)`. -/
def cellAsString (c : CellValue) : Except GoPanic String :=
  match c with
  | .str s => .ok s
  | _ => .error ⟨"interface conversion: interface is not string"⟩

/-- The composite series key of one row: the native-tag JSON string (when the
`tag` column exists) concatenated with `idx-value-idx-value-…` over ALL
deepflow native tag columns — `strconv.Itoa(idx)` and `getValue(values[idx])`
joined by `"-"`; no zero-value elision happens here. -/
def rowKey (tagIndex : Int) (allTags : List Nat) (row : List CellValue) :
    Except GoPanic String := do
  let promTagJson ←
    if tagIndex > -1 then do
      let c ← cellAt row tagIndex.toNat
      cellAsString c
    else
      pure ""
  let parts ← allTags.mapM (fun idx => do
    let c ← cellAt row idx
    pure [toString idx, getValue c])
  let nativePart :=
    if allTags.length > 0 then String.intercalate "-" parts.flatten else ""
  pure (promTagJson ++ nativePart)

/-- The label set built for a newly allocated series: the parsed native-tag
JSON pairs (with `tag_` prefix under `prefixTag`), then the non-zero deepflow
native tag columns (with the auto-tagging prefix under `prefixDeepFlow` when a
`tag` column exists), then `__name__ = metricsName`. -/
def seriesLabels (pfx : PrefixKind) (autoTaggingPrefix : String)
    (parseTagJson : String → List (String × String)) (columns : List String)
    (tagIndex : Int) (allTags : List Nat) (metricsName : String)
    (row : List CellValue) : Except GoPanic (List (String × String)) := do
  let pairs1 ←
    if tagIndex > -1 then do
      let c ← cellAt row tagIndex.toNat
      let js ← cellAsString c
      pure ((parseTagJson js).map fun kv =>
        if pfx = .prefixTag then (appendPrometheusPrefix kv.1, kv.2) else kv)
    else
      pure []
  let tagged ← allTags.mapM (fun idx => do
    let c ← cellAt row idx
    match columns.get? idx with
    | some colName => pure (colName, c)
    | none => .error ⟨"runtime error: index out of range"⟩)
  let pairs2 := tagged.filterMap fun p =>
    if isZero p.2 then none
    else if tagIndex > -1 ∧ pfx = .prefixDeepFlow then
      some (autoTaggingPrefix ++ formatTagName p.1, getValue p.2)
    else
      some (formatTagName p.1, getValue p.2)
  pure (pairs1 ++ pairs2 ++ [(PROMETHEUS_METRICS_NAME, metricsName)])

/-- A sample value: `float64(int-cell)` or a float cell as-is. -/
inductive SampleValue where
  | fromInt (i : Int)
  | raw (renderedFloat : String)
deriving DecidableEq, Repr

structure PromSample where
  timestamp : Int
  value : SampleValue
deriving DecidableEq, Repr

structure PromSeries where
  labels : List (String × String)
  samples : List PromSample
deriving DecidableEq, Repr

structure PromReadResponse where
  timeseries : List PromSeries
deriving DecidableEq, Repr

/-- Everything the two row passes read (classification results plus config). -/
structure RespCtx where
  pfx : PrefixKind
  autoTaggingPrefix : String
  parseTagJson : String → List (String × String)
  columns : List String
  tagIndex : Int
  metricsName : String
  allTags : List Nat
  seriesLimit : Nat

/-- State of the first pass: the key → series-index map (insertion order),
the allocated series, the per-series sample counts (capacity hints in the
source), and `initialSeriesIndex`. -/
structure FPState where
  seriesIndexMap : List (String × Int)
  seriesArray : List PromSeries
  seriesSampleCount : List Int
  initialSeriesIndex : Int

def mapLookup (m : List (String × Int)) (k : String) : Option Int :=
  (m.find? fun p => p.1 == k).map (·.2)

def listIncr : List Int → Nat → List Int
  | [], _ => []
  | x :: xs, 0 => (x + 1) :: xs
  | x :: xs, n + 1 => x :: listIncr xs n

/-- The first pass of `respTransToProm`: per row, compute the composite key,
reuse or allocate the series (`-1` past the `SeriesLimit`), and record each
row's series index. -/
def firstPass (ctx : RespCtx) (rows : List (List CellValue)) (st : FPState) :
    Except GoPanic (FPState × List Int) :=
  match rows with
  | [] => .ok (st, [])
  | r :: rest => do
    let key ← rowKey ctx.tagIndex ctx.allTags r
    match mapLookup st.seriesIndexMap key with
    | some idx =>
      let (stF, idxs) ← firstPass ctx rest
        { st with seriesSampleCount := listIncr st.seriesSampleCount idx.toNat }
      pure (stF, idx :: idxs)
    | none =>
      if ctx.seriesLimit ≤ st.seriesIndexMap.length then
        let (stF, idxs) ← firstPass ctx rest st
        pure (stF, (-1) :: idxs)
      else do
        let pairs ← seriesLabels ctx.pfx ctx.autoTaggingPrefix ctx.parseTagJson
          ctx.columns ctx.tagIndex ctx.allTags ctx.metricsName r
        let (stF, idxs) ← firstPass ctx rest
          { seriesIndexMap := st.seriesIndexMap ++ [(key, st.initialSeriesIndex)],
            seriesArray := st.seriesArray ++ [⟨pairs, []⟩],
            seriesSampleCount := st.seriesSampleCount ++ [1],
            initialSeriesIndex := st.initialSeriesIndex + 1 }
        pure (stF, st.initialSeriesIndex :: idxs)

/-- Decoding of the metric cell in the second pass: nil skips the row, an
`Int`/`Float64` schema type asserts the corresponding cell, anything else is
the unknown-metrics-type error. -/
inductive MetricDecode where
  | skip
  | value (v : SampleValue)
deriving DecidableEq, Repr

def decodeMetricCell (metricsType : String) (c : CellValue) :
    Except GoPanic (Except String MetricDecode) :=
  match c with
  | .null => .ok (.ok .skip)
  | _ =>
    if metricsType == "Int" then
      match c with
      | .int i => .ok (.ok (.value (.fromInt i)))
      | _ => .error ⟨"interface conversion: interface is not int"⟩
    else if metricsType == "Float64" then
      match c with
      | .flt f => .ok (.ok (.value (.raw f)))
      | _ => .error ⟨"interface conversion: interface is not float64"⟩
    else
      .ok (.error ("Unknown metrics type " ++ metricsType ++ ", value = " ++ goVerbV c))

/-- `seriesArray[idx].Samples = append(…, sample)` with Go's bounds panic. -/
def appendSampleAt (series : List PromSeries) (idx : Nat) (s : PromSample) :
    Except GoPanic (List PromSeries) :=
  match series, idx with
  | [], _ => .error ⟨"runtime error: index out of range"⟩
  | x :: xs, 0 => .ok ({ x with samples := x.samples ++ [s] } :: xs)
  | x :: xs, n + 1 =>
    match appendSampleAt xs n s with
    | .ok xs' => .ok (x :: xs')
    | .error p => .error p

/-- The second pass of `respTransToProm`, already applied to the reversed
row/index list (the source scans `i = len-1 … 0`): skip `-1` rows, skip nil
metric cells, decode the metric, and append `{time*1000, value}` to the row's
series. -/
def secondPassAux (metricsType : String) (metricsIndex timeIndex : Nat) :
    List (List CellValue × Int) → List PromSeries →
    Except GoPanic (Except String (List PromSeries))
  | [], series => .ok (.ok series)
  | (r, sIdx) :: rest, series =>
    if sIdx == -1 then secondPassAux metricsType metricsIndex timeIndex rest series
    else
      match cellAt r metricsIndex with
      | .error p => .error p
      | .ok mc =>
        match decodeMetricCell metricsType mc with
        | .error p => .error p
        | .ok (.error e) => .ok (.error e)
        | .ok (.ok .skip) => secondPassAux metricsType metricsIndex timeIndex rest series
        | .ok (.ok (.value v)) =>
          match cellAt r timeIndex with
          | .error p => .error p
          | .ok (.int t) =>
            match appendSampleAt series sIdx.toNat ⟨t * 1000, v⟩ with
            | .error p => .error p
            | .ok series' => secondPassAux metricsType metricsIndex timeIndex rest series'
          | .ok _ => .error ⟨"interface conversion: interface is not int"⟩

/-- `respTransToProm`: classification, guard, first pass, reverse second
pass, response assembly. `maxPossibleSeries` of the source only pre-sizes
allocations and has no observable effect. -/
def respTransToProm (cfg : PromQuerierConfig) (pfx : PrefixKind)
    (parseTagJson : String → List (String × String)) (result : QuerierResult) :
    Except GoPanic (Except String PromReadResponse) :=
  let cc := classifyColumns result.columns
  if cc.metricsIndex < 0 ∨ cc.timeIndex < 0 then
    .ok (.error ("metricsIndex(" ++ toString cc.metricsIndex ++ "), timeIndex(" ++
      toString cc.timeIndex ++ ") get failed"))
  else
    match result.schemas.get? cc.metricsIndex.toNat with
    | none => .error ⟨"runtime error: index out of range"⟩
    | some metricsType =>
      let ctx : RespCtx :=
        ⟨pfx, cfg.autoTaggingPrefix, parseTagJson, result.columns, cc.tagIndex,
         cc.metricsName, allDeepFlowNativeTags cc result.columns.length,
         cfg.seriesLimit⟩
      match firstPass ctx result.values ⟨[], [], [], 0⟩ with
      | .error p => .error p
      | .ok (st, idxs) =>
        match secondPassAux metricsType cc.metricsIndex.toNat cc.timeIndex.toNat
          ((result.values.zip idxs).reverse) st.seriesArray with
        | .error p => .error p
        | .ok (.error e) => .ok (.error e)
        | .ok (.ok series) => .ok (.ok ⟨series⟩)

/-- The series key as the claim (and spec) words it — refinement target, not
source code: the native-tag JSON concatenated with `idx-value` pairs in which
native tags whose value is zero (`0`, `""`, `"\x7b\x7d"`, nil) are elided. To be
compared with `rowKey`, which elides nothing. -/
def specSeriesKey (tagIndex : Int) (allTags : List Nat) (row : List CellValue) :
    Except GoPanic String := do
  let promTagJson ←
    if tagIndex > -1 then do
      let c ← cellAt row tagIndex.toNat
      cellAsString c
    else
      pure ""
  let kept ← allTags.mapM (fun idx => do
    let c ← cellAt row idx
    pure (idx, c))
  let parts := (kept.filter fun p => !(isZero p.2)).flatMap
    fun p => [toString p.1, getValue p.2]
  let nativePart :=
    if allTags.length > 0 then String.intercalate "-" parts else ""
  pure (promTagJson ++ nativePart)

/-- Concrete querier result refuting C8: one native tag column `c` holding
the int `0` in the first row and SQL NULL in the second. -/
def zeroTagResult : QuerierResult :=
  ⟨["metrics.m", "timestamp", "c"], ["Float64", "Int", "Int"],
   [[.flt "1", .int 5, .int 0], [.flt "1", .int 5, .null]]⟩

/-- Concrete querier result refuting the no-duplicate-label-set part of C6:
three distinct keys (`"2-"`, `"2-0"`, `"2-x"`) against `SeriesLimit = 2`; the
two allocated series elide their zero-valued tag and so carry identical label
sets. -/
def overflowResult : QuerierResult :=
  ⟨["metrics.m", "timestamp", "c"], ["Float64", "Int", "Int"],
   [[.flt "1", .int 10, .null], [.flt "1", .int 9, .int 0], [.flt "1", .int 8, .str "x"]]⟩

/-- Concrete querier result refuting C7: two rows of one series share the
timestamp 1 s; the remote-read request has `StartMs = 1500`. -/
def tieResult : QuerierResult :=
  ⟨["metrics.m", "timestamp", "c"], ["Float64", "Int", "Int"],
   [[.flt "1", .int 1, .str "x"], [.flt "2", .int 1, .str "x"]]⟩

/-- Position of the first occurrence of a key in the allocation order. -/
def keyIndex (A : List String) (k : String) : Option Nat :=
  match A with
  | [] => none
  | a :: rest => if a == k then some 0 else (keyIndex rest k).map (· + 1)

/-- Specification of one first-pass allocation step on the ordered list of
allocated keys: an already-allocated key changes nothing; at the series limit
nothing is allocated; otherwise the key is appended. -/
def allocKeysStep (limit : Nat) (acc : List String) (k : String) : List String :=
  match keyIndex acc k with
  | some _ => acc
  | none => if limit ≤ acc.length then acc else acc ++ [k]

/-- The allocated keys after a run of rows with keys `ks`, starting from
`acc`. -/
def allocKeysFrom (limit : Nat) (acc : List String) (ks : List String) : List String :=
  ks.foldl (allocKeysStep limit) acc

/-- The key → series-index association the first pass maintains: keys in
allocation order, numbered from `i`. -/
def enumKeysAux (i : Nat) : List String → List (String × Int)
  | [] => []
  | k :: ks => (k, Int.ofNat i) :: enumKeysAux (i + 1) ks

mutual
/-- A parsed JSON document (the model of what `encoding/json` yields into
`interface\x7b\x7d`): null, booleans, numbers and strings as leaves, arrays and
objects with their element/entry lists as sibling inductives. -/
inductive Json where
  | null
  | boolean (b : Bool)
  | num (s : String)
  | str (s : String)
  | arr (xs : JsonList)
  | obj (kvs : JsonObj)
inductive JsonList where
  | nil
  | cons (x : Json) (rest : JsonList)
inductive JsonObj where
  | nil
  | cons (k : String) (v : Json) (rest : JsonObj)
end

mutual
/-- A Go type as `getAllJSONTags` inspects it through `reflect`: a struct
with json-tagged fields, a pointer, a collection (array, slice or map, with
its `Elem()` type), or any other kind. -/
inductive GoType where
  | struct (fields : GoFields)
  | ptr (t : GoType)
  | coll (elem : GoType)
  | prim
inductive GoFields where
  | nil
  | cons (tag : String) (t : GoType) (rest : GoFields)
end

mutual
/-- `getAllJSONTags`: dereference one pointer, then — only for a struct —
walk the fields; a field with an empty json tag is skipped entirely (no
recursion), otherwise its tag is collected and struct/pointer field types
are walked as-is while array/slice/map fields are walked at their element
type. All tags land in one flat set regardless of depth. -/
def getAllJSONTags : GoType → List String
  | .ptr (.struct fs) => goFieldsTags fs
  | .struct fs => goFieldsTags fs
  | _ => []
def goFieldsTags : GoFields → List String
  | .nil => []
  | .cons tag ft rest =>
    (if tag == "" then []
     else tag ::
       (match ft with
        | .coll e => getAllJSONTags e
        | .prim => []
        | ft2 => getAllJSONTags ft2)) ++ goFieldsTags rest
end

mutual
/-- `GetJsonTags`: the flat json-tag set of a value's type. -/
def GetJsonTags (v : GoType) : List String := getAllJSONTags v

/-- `getAllKeys`: every object key at every depth of the document, in one
flat set. -/
def getAllKeys : Json → List String
  | .obj kvs => goObjKeys kvs
  | .arr xs => goArrKeys xs
  | _ => []
def goObjKeys : JsonObj → List String
  | .nil => []
  | .cons k v rest => k :: (getAllKeys v ++ goObjKeys rest)
def goArrKeys : JsonList → List String
  | .nil => []
  | .cons x rest => getAllKeys x ++ goArrKeys rest
end

/-- `GetAllKeys`: `json.Unmarshal` into `map[string]interface\x7b\x7d` accepts
exactly a JSON object (or `null`, leaving a nil map); any other document —
even valid JSON — yields the not-a-valid-JSON error. `none` stands for a
string that does not parse at all. -/
def GetAllKeys (doc : Option Json) : Except String (List String) :=
  match doc with
  | none => .error "not a valid JSON string"
  | some .null => .ok []
  | some (.obj kvs) => .ok (goObjKeys kvs)
  | some _ => .error "not a valid JSON string"

/-- `CheckJSONParam`: parse the document's keys, then report the first key
that is not a json tag of `v` as a rogue field. -/
def CheckJSONParam (doc : Option Json) (v : GoType) : Option String :=
  match GetAllKeys doc with
  | .error e => some e
  | .ok keys =>
    match keys.find? (fun k => !((GetJsonTags v).contains k)) with
    | some k => some ("rogue field(" ++ k ++ ")")
    | none => none

/-- C1: refuted as stated — the code, not the claim, is at fault. The writer
array is declared with length `MAX_APP_LABEL_COLUMN_INDEX` (not
`MAX_APP_LABEL_COLUMN_INDEX + 1` as the one-slot-per-admissible-width reading
requires), so a sample with `len(AppLabelValueIDs) = MAX_APP_LABEL_COLUMN_INDEX + 1`
(i.e. `appLabelCount = MAX_APP_LABEL_COLUMN_INDEX`, admitted by both guards)
makes `getOrCreateCkwriter` index the array out of range: a Go panic.  The
theorem evaluates the embedded code at that failing input, for every value of
the externally defined constant. -/
theorem getOrCreateCkwriter_out_of_range_at_max_width
    (maxAppLabelColumnIndex : Nat) (arr : List CKWriterSlot)
    (hlen : arr.length = prometheusCKWritersSize maxAppLabelColumnIndex) :
    writeBatchPrecondition maxAppLabelColumnIndex (maxAppLabelColumnIndex + 1) ∧
    getOrCreateCkwriter maxAppLabelColumnIndex arr (maxAppLabelColumnIndex + 1) =
      .error ⟨"runtime error: index out of range"⟩ := by
  constructor
  · exact ⟨Nat.le_add_left 1 _, by omega⟩
  · have hnl : ¬ (maxAppLabelColumnIndex + 1 - 1 < arr.length) := by
      rw [hlen]
      simp [prometheusCKWritersSize]
    have hnl' : ¬ (maxAppLabelColumnIndex < arr.length) := by
      simpa using hnl
    unfold getOrCreateCkwriter getPrometheusCKWriters
    simp [hnl']

/-- Witness for C1's theorem: an array of the declared length for
`MAX_APP_LABEL_COLUMN_INDEX = 2`, evaluated concretely. -/
theorem getOrCreateCkwriter_out_of_range_at_max_width_witness :
    writeBatchPrecondition 2 3 ∧
    getOrCreateCkwriter 2 [(none : CKWriterSlot), none] 3 =
      .error ⟨"runtime error: index out of range"⟩ :=
  getOrCreateCkwriter_out_of_range_at_max_width 2 [none, none] rfl

/-! ### ID cache: single-flight refresh (`controller/prometheus/cache/cache.go`)

`Cache.tryRefresh` loops on a `select` over the 1-slot channel `canRefresh`:
receiving the token runs `refresh()` once, sends the token back and exits the
loop; the `default` branch sleeps one second and retries. `Cache.Start` sends
the single token before the first `tryRefresh`. The embedding is a labelled
transition system over the interleavings of `n` goroutines each executing one
`tryRefresh()` call: a goroutine is `waiting` (at the `select`), `critical`
(inside `refresh()`, holding the token) or `done` (token returned, call
finished); `runs` counts its completed `refresh()` entries. -/

theorem criticalCountL_append (a b : List RefreshThread) :
    criticalCountL (a ++ b) = criticalCountL a + criticalCountL b := by
  simp [criticalCountL, List.filter_append]

theorem criticalCountL_cons (t : RefreshThread) (l : List RefreshThread) :
    criticalCountL (t :: l) =
      (if t.pc = .critical then 1 else 0) + criticalCountL l := by
  simp only [criticalCountL, List.filter_cons]
  split
  · next h =>
    rw [if_pos (by simpa using h)]
    simp only [List.length_cons]
    omega
  · next h =>
    rw [if_neg (by simpa using h)]
    omega

theorem criticalCountL_replicate_waiting (n : Nat) :
    criticalCountL (List.replicate n ⟨.waiting, 0⟩) = 0 := by
  induction n with
  | zero => rfl
  | succ k ih =>
    rw [List.replicate_succ, criticalCountL_cons, ih]
    simp

theorem refreshInv_init (n : Nat) : RefreshInv (refreshInit n) := by
  constructor
  · simp [criticalCount, refreshInit, criticalCountL_replicate_waiting]
  · intro t ht
    simp only [refreshInit] at ht
    have heq := List.eq_of_mem_replicate ht
    subst heq
    exact ⟨fun _ => rfl, fun h => by simp at h, fun h => by simp at h⟩

theorem refreshInv_step {s s' : RefreshSys} (h : RefreshStep s s')
    (hinv : RefreshInv s) : RefreshInv s' := by
  obtain ⟨hcount, hruns⟩ := hinv
  cases h with
  | acquire pre post r =>
    constructor
    · simp only [criticalCount, criticalCountL_append, criticalCountL_cons] at hcount ⊢
      simp at hcount ⊢
      omega
    · intro t ht
      simp only [List.mem_append, List.mem_cons] at ht
      rcases ht with h1 | h2 | h3
      · exact hruns t (by simp [h1])
      · have hr : r = 0 := by
          have := (hruns ⟨.waiting, r⟩ (by simp)).1
          simpa using this
        subst h2
        exact ⟨fun h => by simp at h, fun _ => by simp [hr], fun h => by simp at h⟩
      · exact hruns t (by simp [h3])
  | pollFail pre post r =>
    exact ⟨hcount, hruns⟩
  | release tok pre post r =>
    constructor
    · simp only [criticalCount, criticalCountL_append, criticalCountL_cons] at hcount ⊢
      simp at hcount ⊢
      omega
    · intro t ht
      simp only [List.mem_append, List.mem_cons] at ht
      rcases ht with h1 | h2 | h3
      · exact hruns t (by simp [h1])
      · have hr : r = 1 := by
          have := (hruns ⟨.critical, r⟩ (by simp)).2.1
          simpa using this
        subst h2
        exact ⟨fun h => by simp at h, fun h => by simp at h, fun _ => by simp [hr]⟩
      · exact hruns t (by simp [h3])

theorem refreshInv_reachable {n : Nat} {s : RefreshSys}
    (h : Relation.ReflTransGen RefreshStep (refreshInit n) s) : RefreshInv s := by
  induction h with
  | refl => exact refreshInv_init n
  | tail _ hstep ih => exact refreshInv_step hstep ih

theorem waitingCountL_append (a b : List RefreshThread) :
    waitingCountL (a ++ b) = waitingCountL a + waitingCountL b := by
  simp [waitingCountL, List.filter_append]

theorem waitingCountL_cons (t : RefreshThread) (l : List RefreshThread) :
    waitingCountL (t :: l) =
      (if t.pc = .waiting then 1 else 0) + waitingCountL l := by
  simp only [waitingCountL, List.filter_cons]
  split
  · next h =>
    rw [if_pos (by simpa using h)]
    simp only [List.length_cons]
    omega
  · next h =>
    rw [if_neg (by simpa using h)]
    omega

theorem refreshInv_rtg {s s' : RefreshSys}
    (h : Relation.ReflTransGen RefreshStep s s') (hinv : RefreshInv s) :
    RefreshInv s' := by
  induction h with
  | refl => exact hinv
  | tail _ hstep ih => exact refreshInv_step hstep ih

/-- Progress: from any state satisfying the invariant, the scheduler can drive
every `tryRefresh()` call to completion. -/
theorem refresh_progress (s : RefreshSys) (hinv : RefreshInv s) :
    ∃ s', Relation.ReflTransGen RefreshStep s s' ∧ ∀ t ∈ s'.threads, t.pc = .done := by
  generalize hm : 2 * waitingCountL s.threads + criticalCountL s.threads = m
  induction m using Nat.strong_induction_on generalizing s with
  | _ m ih =>
  obtain ⟨tok, threads⟩ := s
  by_cases hc : 0 < criticalCountL threads
  · obtain ⟨t, ht⟩ := List.exists_mem_of_length_pos hc
    have htmem := (List.mem_filter.mp ht).1
    have htpc : t.pc = .critical := by simpa using (List.mem_filter.mp ht).2
    obtain ⟨pre, post, hdec⟩ := List.append_of_mem htmem
    obtain ⟨tpc, truns⟩ := t
    simp only at htpc
    subst htpc
    subst hdec
    have hstep := RefreshStep.release tok pre post truns
    have hinv₁ := refreshInv_step hstep hinv
    have hmeas : 2 * waitingCountL (pre ++ ⟨.done, truns⟩ :: post) +
        criticalCountL (pre ++ ⟨.done, truns⟩ :: post) < m := by
      subst hm
      simp only [waitingCountL_append, waitingCountL_cons,
        criticalCountL_append, criticalCountL_cons] at hc ⊢
      simp at hc ⊢
    obtain ⟨s', hsteps, hdone⟩ := ih _ hmeas ⟨true, pre ++ ⟨.done, truns⟩ :: post⟩ hinv₁ rfl
    exact ⟨s', Relation.ReflTransGen.head hstep hsteps, hdone⟩
  · by_cases hw : 0 < waitingCountL threads
    · have htok : tok = true := by
        obtain ⟨hcount, _⟩ := hinv
        simp only [criticalCount] at hcount
        have hc0 : criticalCountL threads = 0 := by omega
        cases tok with
        | true => rfl
        | false =>
          exfalso
          rw [hc0] at hcount
          simp at hcount
      subst htok
      obtain ⟨t, ht⟩ := List.exists_mem_of_length_pos hw
      have htmem := (List.mem_filter.mp ht).1
      have htpc : t.pc = .waiting := by simpa using (List.mem_filter.mp ht).2
      obtain ⟨pre, post, hdec⟩ := List.append_of_mem htmem
      obtain ⟨tpc, truns⟩ := t
      simp only at htpc
      subst htpc
      subst hdec
      have hstep := RefreshStep.acquire pre post truns
      have hinv₁ := refreshInv_step hstep hinv
      have hmeas : 2 * waitingCountL (pre ++ ⟨.critical, truns + 1⟩ :: post) +
          criticalCountL (pre ++ ⟨.critical, truns + 1⟩ :: post) < m := by
        subst hm
        simp only [waitingCountL_append, waitingCountL_cons,
          criticalCountL_append, criticalCountL_cons] at hw ⊢
        simp at hw ⊢
        omega
      obtain ⟨s', hsteps, hdone⟩ :=
        ih _ hmeas ⟨false, pre ++ ⟨.critical, truns + 1⟩ :: post⟩ hinv₁ rfl
      exact ⟨s', Relation.ReflTransGen.head hstep hsteps, hdone⟩
    · refine ⟨⟨tok, threads⟩, Relation.ReflTransGen.refl, ?_⟩
      intro t ht
      rcases hpc : t.pc with _ | _ | _
      · exfalso
        apply hw
        have : t ∈ threads.filter (fun t => t.pc == .waiting) :=
          List.mem_filter.mpr ⟨ht, by simp [hpc]⟩
        exact List.length_pos.mpr (fun hnil => by simp [hnil] at this)
      · exfalso
        apply hc
        have : t ∈ threads.filter (fun t => t.pc == .critical) :=
          List.mem_filter.mpr ⟨ht, by simp [hpc]⟩
        exact List.length_pos.mpr (fun hnil => by simp [hnil] at this)
      · rfl

/-- C2: single-flight refresh. In every interleaving of concurrent
`tryRefresh()` calls starting from the token-charged initial state: (1) at most
one goroutine is ever inside `refresh()` — no two `refresh()` executions
overlap; (2) a goroutine that finished its `tryRefresh()` has executed
`refresh()` exactly once (and one still inside `refresh()` is in its only
execution); (3) from any reachable state the system can be driven to the state
where every `tryRefresh()` call has completed, each having run `refresh()`
exactly once. -/
theorem tryRefresh_single_flight (n : Nat) (s : RefreshSys)
    (h : Relation.ReflTransGen RefreshStep (refreshInit n) s) :
    criticalCount s ≤ 1 ∧
    (∀ t ∈ s.threads, (t.pc = .done → t.runs = 1) ∧ (t.pc = .critical → t.runs = 1)) ∧
    (∃ s', Relation.ReflTransGen RefreshStep s s' ∧
      ∀ t ∈ s'.threads, t.pc = .done ∧ t.runs = 1) := by
  have hinv := refreshInv_reachable h
  obtain ⟨hcount, hruns⟩ := hinv
  refine ⟨by split at hcount <;> omega, ?_, ?_⟩
  · intro t ht
    exact ⟨(hruns t ht).2.2, (hruns t ht).2.1⟩
  · obtain ⟨s', hsteps, hdone⟩ := refresh_progress s ⟨hcount, hruns⟩
    refine ⟨s', hsteps, fun t ht => ?_⟩
    have hinv' := refreshInv_rtg hsteps ⟨hcount, hruns⟩
    exact ⟨hdone t ht, (hinv'.2 t ht).2.2 (hdone t ht)⟩

/-- Witness for C2's theorem: two concurrent `tryRefresh()` calls from the
initial state. -/
theorem tryRefresh_single_flight_witness :
    criticalCount (refreshInit 2) ≤ 1 ∧
    (∀ t ∈ (refreshInit 2).threads,
      (t.pc = .done → t.runs = 1) ∧ (t.pc = .critical → t.runs = 1)) ∧
    (∃ s', Relation.ReflTransGen RefreshStep (refreshInit 2) s' ∧
      ∀ t ∈ s'.threads, t.pc = .done ∧ t.runs = 1) :=
  tryRefresh_single_flight 2 (refreshInit 2) Relation.ReflTransGen.refl

/-! ### Cluster-aware writer: online schema widening

`getOrCreateCkwriter` (part after the per-width cache miss) queries the current
physical app-label column count and, when it is smaller than the requested
width, issues `ALTER TABLE … ADD COLUMN app_label_value_id_i UInt32` for
`i = K_cur+1 … width` against `prometheus.samples_local` and
`prometheus.samples` (`addAppLabelColumns`), treating a "column with this name
already exists" error as success. The ClickHouse catalog is modelled as the
index sets of the `app_label_value_id_*` columns of the two tables; an
`ALTER … ADD COLUMN` returns the already-exists error exactly when the column
is present, and appends it otherwise. Peer-cluster replay
(`addAppLabelColumnsOnCluster`, `createTableOnCluster`) only warns and does not
touch the local catalog, so it is not part of the state. -/

theorem addColumnTolerant_range (k : Nat) :
    addColumnTolerant (List.range' 1 k) (k + 1) = .ok (List.range' 1 (k + 1)) := by
  unfold addColumnTolerant alterAddColumn
  rw [if_neg (by simp [List.mem_range'_1]; omega)]
  have : List.range' 1 k ++ [k + 1] = List.range' 1 (k + 1) := by
    rw [List.range'_concat 1 k]
    simp [Nat.add_comm]
  simp [this]

theorem addAppLabelColumnsLoop_prefix (n k : Nat) :
    addAppLabelColumnsLoop n (prefixCatalog k) (k + 1) (k + n) =
      .ok (prefixCatalog (k + n), alterLog k (k + n)) := by
  induction n generalizing k with
  | zero =>
    simp [addAppLabelColumnsLoop, alterLog]
  | succ m ih =>
    unfold addAppLabelColumnsLoop
    rw [if_pos (by omega)]
    simp only [prefixCatalog, addColumnTolerant_range]
    have ih' := ih (k + 1)
    have harg : k + 1 + m = k + (m + 1) := by omega
    rw [harg] at ih'
    simp only [prefixCatalog] at ih'
    rw [show k + 1 + 1 = (k + 1) + 1 from rfl, ih']
    have hlog : alterLog k (k + (m + 1)) =
        ("samples_local", k + 1) :: ("samples", k + 1) :: alterLog (k + 1) (k + (m + 1)) := by
      unfold alterLog
      have h1 : k + (m + 1) - k = m + 1 := by omega
      have h2 : k + (m + 1) - (k + 1) = m := by omega
      rw [h1, h2, List.range'_succ (k + 1) m 1]
      simp
    rw [hlog]

theorem addAppLabelColumns_prefix (k w : Nat) (h : k < w) :
    addAppLabelColumns (prefixCatalog k) (k + 1) w = .ok (prefixCatalog w, alterLog k w) := by
  obtain ⟨d, rfl⟩ : ∃ d, w = k + d := ⟨w - k, by omega⟩
  unfold addAppLabelColumns
  have hfuel : k + d + 1 - (k + 1) = d := by omega
  rw [hfuel]
  exact addAppLabelColumnsLoop_prefix d k

theorem writerStep_cached (st : WriterState) (w : Nat) (h : w ∈ st.writers) :
    writerStep st w = .ok (st, []) := by
  unfold writerStep
  rw [if_pos h]

theorem writerStep_uncached (st : WriterState) (k w : Nat)
    (hcat : st.cat = prefixCatalog k) (h : w ∉ st.writers) :
    writerStep st w =
      (if k < w then .ok (⟨w :: st.writers, prefixCatalog w⟩, alterLog k w)
       else .ok (⟨w :: st.writers, st.cat⟩, [])) := by
  unfold writerStep
  rw [if_neg h]
  have hcount : getCurrentAppLabelColumnCount st.cat = k := by
    simp [getCurrentAppLabelColumnCount, hcat, prefixCatalog]
  have hcount2 : getCurrentAppLabelColumnCount (prefixCatalog k) = k := by
    simp [getCurrentAppLabelColumnCount, prefixCatalog]
  simp only [hcat, hcount2]
  by_cases hlt : k < w
  · rw [if_pos hlt, if_pos hlt, addAppLabelColumns_prefix k w hlt]
  · rw [if_neg hlt, if_neg hlt]

theorem writerRun_prefix (widths : List Nat) (k₀ : Nat) (writers₀ : List Nat)
    (hw : ∀ w ∈ writers₀, w ≤ k₀) :
    ∃ st', writerRun ⟨writers₀, prefixCatalog k₀⟩ widths = .ok st' ∧
      (∃ k', st'.cat = prefixCatalog k' ∧ k₀ ≤ k' ∧
        (∀ w ∈ widths, w ≤ k') ∧ (∀ w ∈ st'.writers, w ≤ k')) := by
  induction widths generalizing k₀ writers₀ with
  | nil =>
    exact ⟨⟨writers₀, prefixCatalog k₀⟩, rfl, k₀, rfl, le_refl _, by simp, hw⟩
  | cons w ws ih =>
    by_cases hmem : w ∈ writers₀
    · obtain ⟨st', hrun, k', hcat, hk, hws, hwr⟩ := ih k₀ writers₀ hw
      refine ⟨st', ?_, k', hcat, hk, ?_, hwr⟩
      · unfold writerRun
        rw [writerStep_cached ⟨writers₀, prefixCatalog k₀⟩ w hmem]
        exact hrun
      · intro x hx
        rcases List.mem_cons.mp hx with rfl | hx'
        · exact le_trans (hw _ hmem) hk
        · exact hws x hx'
    · by_cases hlt : k₀ < w
      · obtain ⟨st', hrun, k', hcat, hk, hws, hwr⟩ :=
          ih w (w :: writers₀) (by
            intro x hx
            rcases List.mem_cons.mp hx with rfl | hx'
            · exact le_refl x
            · exact le_trans (hw x hx') (le_of_lt hlt))
        refine ⟨st', ?_, k', hcat, le_trans (le_of_lt hlt) hk, ?_, hwr⟩
        · unfold writerRun
          rw [writerStep_uncached ⟨writers₀, prefixCatalog k₀⟩ k₀ w rfl hmem, if_pos hlt]
          exact hrun
        · intro x hx
          rcases List.mem_cons.mp hx with rfl | hx'
          · exact hk
          · exact hws x hx'
      · obtain ⟨st', hrun, k', hcat, hk, hws, hwr⟩ :=
          ih k₀ (w :: writers₀) (by
            intro x hx
            rcases List.mem_cons.mp hx with rfl | hx'
            · omega
            · exact hw x hx')
        refine ⟨st', ?_, k', hcat, hk, ?_, hwr⟩
        · unfold writerRun
          rw [writerStep_uncached ⟨writers₀, prefixCatalog k₀⟩ k₀ w rfl hmem, if_neg hlt]
          exact hrun
        · intro x hx
          rcases List.mem_cons.mp hx with rfl | hx'
          · omega
          · exact hws x hx'

/-- C3: schema widening is monotone and exact. (1) a cached width does no
schema work; (2) on a cache miss over a catalog with columns `1 … k`, ALTER
statements are issued exactly when `K_cur = k < width`, adding exactly the
columns `k+1 … width` to both the local and the distributed table (an
already-existing column is success by `addColumnTolerant`), and the resulting
count is `max k width` — never smaller, never dropping or renumbering a
column (the old column list stays a prefix of the new one); (3) across any
`WriteBatch` width sequence the run never fails, and the final persisted count
is at least the initial count and at least every requested width. -/
theorem writeBatch_schema_monotone :
    (∀ (st : WriterState) (w : Nat), w ∈ st.writers → writerStep st w = .ok (st, [])) ∧
    (∀ (st : WriterState) (k w : Nat), st.cat = prefixCatalog k → w ∉ st.writers →
      writerStep st w =
        (if k < w then .ok (⟨w :: st.writers, prefixCatalog w⟩, alterLog k w)
         else .ok (⟨w :: st.writers, st.cat⟩, [])) ∧
      (∀ st' log, writerStep st w = .ok (st', log) →
        getCurrentAppLabelColumnCount st.cat ≤ getCurrentAppLabelColumnCount st'.cat ∧
        st.cat.distCols.IsPrefix st'.cat.distCols)) ∧
    (∀ (widths : List Nat) (k₀ : Nat) (writers₀ : List Nat),
      (∀ w ∈ writers₀, w ≤ k₀) →
      ∃ st', writerRun ⟨writers₀, prefixCatalog k₀⟩ widths = .ok st' ∧
        ∃ k', st'.cat = prefixCatalog k' ∧ k₀ ≤ k' ∧ ∀ w ∈ widths, w ≤ k') := by
  refine ⟨writerStep_cached, ?_, ?_⟩
  · intro st k w hcat hmem
    have hstep := writerStep_uncached st k w hcat hmem
    refine ⟨hstep, ?_⟩
    intro st' log heq
    rw [hstep] at heq
    split at heq
    · next hlt =>
      rw [Except.ok.injEq, Prod.mk.injEq] at heq
      obtain ⟨h1, h2⟩ := heq
      subst h1
      constructor
      · simp only [getCurrentAppLabelColumnCount, hcat, prefixCatalog, List.length_range']
        omega
      · rw [hcat]
        simp only [prefixCatalog]
        have h3 := List.range'_append 1 k (w - k) 1
        rw [one_mul] at h3
        rw [show w - k + k = w from by omega] at h3
        exact ⟨List.range' (1 + k) (w - k), h3⟩
    · next hge =>
      rw [Except.ok.injEq, Prod.mk.injEq] at heq
      obtain ⟨h1, h2⟩ := heq
      subst h1
      exact ⟨le_refl _, List.prefix_refl _⟩
  · intro widths k₀ writers₀ hw
    obtain ⟨st', hrun, k', hcat, hk, hws, _⟩ := writerRun_prefix widths k₀ writers₀ hw
    exact ⟨st', hrun, k', hcat, hk, hws⟩

/-- Witness for C3's theorem: the spec's scenario S4 — widths 3 then 7 then 5
from an empty catalog; the final column count is 7 and covers every width. -/
theorem writeBatch_schema_monotone_witness :
    ∃ st', writerRun ⟨[], prefixCatalog 0⟩ [3, 7, 5] = .ok st' ∧
      ∃ k', st'.cat = prefixCatalog k' ∧ 0 ≤ k' ∧ ∀ w ∈ [3, 7, 5], w ≤ k' :=
  writeBatch_schema_monotone.2.2 [3, 7, 5] 0 [] (by simp)

/-! ### Remote-read translator (`querier/app/prometheus/service/remote_read.go`)

`promReaderTransToSQL` is embedded as a pure function of: the querier
configuration, the leaky-bucket admission result (`QPSLeakyBucket.Acquire`,
modelled as a function of the requested units), the `CtxKeyShowTag` flag, the
result of the external `showTags` catalog call, and the request. The constants
of `chCommon` and `view` (database names, `DB_TABLE_MAP`'s keys, the querier
aggregation function names) live outside the repository slice under study;
their definitions below are modelled from the spec's metric-alias and
aggregation tables. -/

/-- C9: admission control. When `QPSLeakyBucket.Acquire(1000)` fails, the
translator returns the error `"Prometheus query rate exceeded!"` with an empty
SQL string, and — being the first statement of the function — does so
uniformly for every request, flag and catalog result: no metric parsing, no
SQL construction. -/
theorem promReaderTransToSQL_rate_limited (cfg : PromQuerierConfig)
    (acquire : Nat → Bool) (h : acquire 1000 = false) :
    ∀ (showTagFlag : Bool) (showTagsResult : Except String (List String))
      (req : ReadRequest),
      promReaderTransToSQL cfg acquire showTagFlag showTagsResult req =
        .ok ⟨.prefixNone, "", "", "", some "Prometheus query rate exceeded!"⟩ := by
  intro showTagFlag showTagsResult req
  unfold promReaderTransToSQL promReaderBuild
  rw [h]
  rfl

/-- Witness for C9's theorem: a concrete always-rejecting bucket and a
concrete request. -/
theorem promReaderTransToSQL_rate_limited_witness :
    promReaderTransToSQL ⟨"100", "df_", false, 50⟩ (fun _ => false) false (.ok [])
      ⟨[⟨1700000000000, 1700000000000, [⟨"__name__", "up", .eq⟩],
        ⟨1700000000000, 1700000000000, 0, "", [], false⟩⟩]⟩ =
      .ok ⟨.prefixNone, "", "", "", some "Prometheus query rate exceeded!"⟩ :=
  promReaderTransToSQL_rate_limited ⟨"100", "df_", false, 50⟩ (fun _ => false) rfl
    false (.ok [])
    ⟨[⟨1700000000000, 1700000000000, [⟨"__name__", "up", .eq⟩],
      ⟨1700000000000, 1700000000000, 0, "", [], false⟩⟩]⟩

theorem promReaderBuild_native_agg (cfg : PromQuerierConfig) (acquire : Nat → Bool)
    (showTagsResult : Except String (List String)) (req : ReadRequest)
    (q : PrompbQuery) (rest : List PrompbQuery) (pm : ParseMetricOut)
    (hacq : acquire 1000 = true)
    (hq : req.queries = q :: rest)
    (hpm : parseMetric q.matchers = .ok pm)
    (herr : pm.err = none)
    (hnative : isNativeMetricsDb pm.db = true) :
    promReaderBuild cfg acquire false showTagsResult req =
      match aggSection pm.db pm.metricName q.hints with
      | .error e => .ok (.error ⟨pm.prefixType, "", "", "", some e⟩)
      | .ok (metricsArray0, groupBy, metricWithAggFunc) =>
        let metricsArray1 :=
          if pm.db == "" || pm.db == DB_NAME_EXT_METRICS ||
              pm.db == DB_NAME_DEEPFLOW_SYSTEM || pm.db == DB_NAME_PROMETHEUS then
            metricsArray0 ++ [goSprintf pm.metricAlias [pm.metricName],
              "`" ++ EXT_METRICS_NATIVE_TAG_NAME ++ "`"]
          else if metricWithAggFunc != "" then
            metricsArray0 ++ [goSprintf pm.metricAlias [metricWithAggFunc, pm.metricName]]
          else
            metricsArray0 ++ [goSprintf pm.metricAlias [pm.metricName, pm.metricName]]
        let loopResult := matcherLoop cfg pm.db q.matchers
        let filters :=
          ("(time >= " ++ toString (Int.tdiv q.hints.startMs 1000) ++ " AND time <= " ++
            toString (if Int.tmod q.endTimestampMs 1000 > 0
              then Int.tdiv q.hints.endMs 1000 + 1
              else Int.tdiv q.hints.endMs 1000) ++ ")") :: loopResult.1
        .ok (.ok ⟨pm.prefixType, pm.db, pm.table, pm.dataPrecision,
          metricsArray1 ++ loopResult.2, filters, groupBy⟩) := by
  unfold promReaderBuild
  rw [hacq]
  simp only [Bool.not_true, Bool.false_eq_true, if_false, hq, hpm, herr, hnative,
    Bool.true_eq_false, if_true]

theorem aggSection_empty_grouping (db mn : String) (hints : ReadHints)
    (h : hints.grouping = []) :
    aggSection db mn hints = .error "unknown series" := by
  unfold aggSection
  rw [h]
  rfl

theorem isEmpty_false_of_ne_nil {α : Type} {l : List α} (h : l ≠ []) :
    l.isEmpty = false := by
  cases l with
  | nil => exact absurd rfl h
  | cons a t => rfl

theorem aggSection_without (db mn : String) (hints : ReadHints)
    (h1 : hints.grouping ≠ []) (h2 : hints.By = false) :
    aggSection db mn hints = .error "not support for 'without' clause for aggregation" := by
  unfold aggSection
  simp only [isEmpty_false_of_ne_nil h1, Bool.false_eq_true, if_false, h2,
    Bool.not_false, if_true]

theorem aggSection_unsupported (db mn : String) (hints : ReadHints)
    (h1 : hints.grouping ≠ []) (h2 : hints.By = true)
    (h3 : aggFunctions hints.func = "") :
    aggSection db mn hints =
      .error ("aggregation operator: " ++ hints.func ++ " is not supported yet") := by
  unfold aggSection
  simp only [isEmpty_false_of_ne_nil h1, Bool.false_eq_true, if_false, h2,
    Bool.not_true, h3]
  rfl

theorem aggSection_count_wrong_db (db mn : String) (hints : ReadHints)
    (h1 : hints.grouping ≠ []) (h2 : hints.By = true)
    (h3 : aggFunctions hints.func = FUNCTION_COUNT)
    (h4 : db ≠ DB_NAME_FLOW_LOG) :
    aggSection db mn hints = .error "only supported Count for flow_log" := by
  unfold aggSection
  have hdb : (db != DB_NAME_FLOW_LOG) = true := by
    simpa using h4
  simp only [isEmpty_false_of_ne_nil h1, Bool.false_eq_true, if_false, h2,
    Bool.not_true, h3, hdb, if_true]
  rfl

theorem aggSection_isOk (db mn : String) (hints : ReadHints)
    (h1 : hints.grouping ≠ []) (h2 : hints.By = true)
    (h3 : aggFunctions hints.func ≠ "")
    (h4 : aggFunctions hints.func = FUNCTION_COUNT → db = DB_NAME_FLOW_LOG) :
    ∃ v, aggSection db mn hints = .ok v := by
  unfold aggSection
  have hbeq : (aggFunctions hints.func == "") = false := beq_eq_false_iff_ne.mpr h3
  simp only [isEmpty_false_of_ne_nil h1, Bool.false_eq_true, if_false, h2,
    Bool.not_true, hbeq]
  split
  · next => exact ⟨_, rfl⟩
  · next =>
    split
    · next => exact ⟨_, rfl⟩
    · next =>
      split
      · next hcount =>
        have hdb : db = DB_NAME_FLOW_LOG := h4 (by simpa using hcount)
        rw [hdb]
        simp only [bne_self_eq_false, Bool.false_eq_true, if_false]
        split
        · next => exact ⟨_, rfl⟩
        · next => exact ⟨_, rfl⟩
      · next => exact ⟨_, rfl⟩

/-- C4: on a native metrics db (any db other than ext_metrics,
deepflow-system, prometheus and the empty db), the translator fails with no
SQL exactly when the aggregation precondition is violated: empty `Grouping`
gives "unknown series"; `By=false` gives the without-clause error; a `Func`
outside the supported map gives "aggregation operator: … is not supported
yet"; `Func` mapping to `Count` (count / count_values) on a db other than
flow_log gives "only supported Count for flow_log"; in every other case the
aggregation section succeeds and SQL is produced with no error. -/
theorem promReaderTransToSQL_native_agg_errors (cfg : PromQuerierConfig)
    (acquire : Nat → Bool) (showTagsResult : Except String (List String))
    (req : ReadRequest) (q : PrompbQuery) (rest : List PrompbQuery)
    (pm : ParseMetricOut)
    (hacq : acquire 1000 = true)
    (hq : req.queries = q :: rest)
    (hpm : parseMetric q.matchers = .ok pm)
    (herr : pm.err = none)
    (hnative : isNativeMetricsDb pm.db = true) :
    (q.hints.grouping = [] →
      promReaderTransToSQL cfg acquire false showTagsResult req =
        .ok ⟨pm.prefixType, "", "", "", some "unknown series"⟩) ∧
    (q.hints.grouping ≠ [] → q.hints.By = false →
      promReaderTransToSQL cfg acquire false showTagsResult req =
        .ok ⟨pm.prefixType, "", "", "",
          some "not support for 'without' clause for aggregation"⟩) ∧
    (q.hints.grouping ≠ [] → q.hints.By = true → aggFunctions q.hints.func = "" →
      promReaderTransToSQL cfg acquire false showTagsResult req =
        .ok ⟨pm.prefixType, "", "", "",
          some ("aggregation operator: " ++ q.hints.func ++ " is not supported yet")⟩) ∧
    (q.hints.grouping ≠ [] → q.hints.By = true →
      aggFunctions q.hints.func = FUNCTION_COUNT → pm.db ≠ DB_NAME_FLOW_LOG →
      promReaderTransToSQL cfg acquire false showTagsResult req =
        .ok ⟨pm.prefixType, "", "", "", some "only supported Count for flow_log"⟩) ∧
    (q.hints.grouping ≠ [] → q.hints.By = true → aggFunctions q.hints.func ≠ "" →
      (aggFunctions q.hints.func = FUNCTION_COUNT → pm.db = DB_NAME_FLOW_LOG) →
      ∃ b : PromSQLBuild,
        promReaderBuild cfg acquire false showTagsResult req = .ok (.ok b) ∧
        promReaderTransToSQL cfg acquire false showTagsResult req =
          .ok ⟨b.prefixType,
            parseToQuerierSQL b.db b.table b.metricsArray b.filters b.groupBy cfg.limit,
            b.db, b.dataPrecision, none⟩) := by
  have hred := promReaderBuild_native_agg cfg acquire showTagsResult req q rest pm
    hacq hq hpm herr hnative
  refine ⟨?_, ?_, ?_, ?_, ?_⟩
  · intro hg
    unfold promReaderTransToSQL
    rw [hred, aggSection_empty_grouping pm.db pm.metricName q.hints hg]
  · intro hg hby
    unfold promReaderTransToSQL
    rw [hred, aggSection_without pm.db pm.metricName q.hints hg hby]
  · intro hg hby hf
    unfold promReaderTransToSQL
    rw [hred, aggSection_unsupported pm.db pm.metricName q.hints hg hby hf]
  · intro hg hby hf hdb
    unfold promReaderTransToSQL
    rw [hred, aggSection_count_wrong_db pm.db pm.metricName q.hints hg hby hf hdb]
  · intro hg hby hf hdb
    obtain ⟨v, hv⟩ := aggSection_isOk pm.db pm.metricName q.hints hg hby hf hdb
    rw [hv] at hred
    obtain ⟨ma, gb, mw⟩ := v
    refine ⟨_, hred, ?_⟩
    unfold promReaderTransToSQL
    rw [hred]

/-- Witness for C4's theorem: the S3 scenario discharges every hypothesis
concretely; its `Func="stdvar"` makes the third conjunct bite. -/
theorem promReaderTransToSQL_native_agg_errors_witness :
    ((s3Query.hints.grouping = [] →
      promReaderTransToSQL ⟨"100", "df_", false, 50⟩ (fun _ => true) false (.ok [])
          ⟨[s3Query]⟩ =
        .ok ⟨s3ParseOut.prefixType, "", "", "", some "unknown series"⟩) ∧
    (s3Query.hints.grouping ≠ [] → s3Query.hints.By = false →
      promReaderTransToSQL ⟨"100", "df_", false, 50⟩ (fun _ => true) false (.ok [])
          ⟨[s3Query]⟩ =
        .ok ⟨s3ParseOut.prefixType, "", "", "",
          some "not support for 'without' clause for aggregation"⟩) ∧
    (s3Query.hints.grouping ≠ [] → s3Query.hints.By = true →
      aggFunctions s3Query.hints.func = "" →
      promReaderTransToSQL ⟨"100", "df_", false, 50⟩ (fun _ => true) false (.ok [])
          ⟨[s3Query]⟩ =
        .ok ⟨s3ParseOut.prefixType, "", "", "",
          some ("aggregation operator: " ++ s3Query.hints.func ++ " is not supported yet")⟩) ∧
    (s3Query.hints.grouping ≠ [] → s3Query.hints.By = true →
      aggFunctions s3Query.hints.func = FUNCTION_COUNT →
      s3ParseOut.db ≠ DB_NAME_FLOW_LOG →
      promReaderTransToSQL ⟨"100", "df_", false, 50⟩ (fun _ => true) false (.ok [])
          ⟨[s3Query]⟩ =
        .ok ⟨s3ParseOut.prefixType, "", "", "", some "only supported Count for flow_log"⟩) ∧
    (s3Query.hints.grouping ≠ [] → s3Query.hints.By = true →
      aggFunctions s3Query.hints.func ≠ "" →
      (aggFunctions s3Query.hints.func = FUNCTION_COUNT → s3ParseOut.db = DB_NAME_FLOW_LOG) →
      ∃ b : PromSQLBuild,
        promReaderBuild ⟨"100", "df_", false, 50⟩ (fun _ => true) false (.ok [])
            ⟨[s3Query]⟩ = .ok (.ok b) ∧
        promReaderTransToSQL ⟨"100", "df_", false, 50⟩ (fun _ => true) false (.ok [])
            ⟨[s3Query]⟩ =
          .ok ⟨b.prefixType,
            parseToQuerierSQL b.db b.table b.metricsArray b.filters b.groupBy "100",
            b.db, b.dataPrecision, none⟩)) ∧
    promReaderTransToSQL ⟨"100", "df_", false, 50⟩ (fun _ => true) false (.ok [])
        ⟨[s3Query]⟩ =
      .ok ⟨.prefixNone, "", "", "",
        some "aggregation operator: stdvar is not supported yet"⟩ :=
  ⟨promReaderTransToSQL_native_agg_errors ⟨"100", "df_", false, 50⟩ (fun _ => true)
    (.ok []) ⟨[s3Query]⟩ s3Query [] s3ParseOut rfl rfl rfl rfl rfl,
   by rfl⟩

theorem aggSection_ok_shape (db mn : String) (hints : ReadHints)
    (ma gb : List String) (mw : String)
    (h : aggSection db mn hints = .ok (ma, gb, mw)) :
    ma.head? = some (if hints.stepMs > 0 then stepTimeExpr hints.stepMs else unixTimeExpr) ∧
    gb.head? = some EXT_METRICS_TIME_COLUMNS := by
  unfold aggSection at h
  repeat' split at h
  all_goals
    first
      | exact Except.noConfusion h
      | (rw [Except.ok.injEq, Prod.mk.injEq] at h
         obtain ⟨h1, h2⟩ := h
         rw [Prod.mk.injEq] at h2
         subst h1
         rw [← h2.1]
         refine ⟨?_, ?_⟩ <;> simp [aggTimeExpr])

theorem head?_append_left {α : Type} (l t : List α) (x : α)
    (h : l.head? = some x) : (l ++ t).head? = some x := by
  cases l with
  | nil => simp at h
  | cons a l' =>
    simp only [List.head?_cons, Option.some.injEq] at h
    simp [h]

theorem promReaderBuild_reduce (cfg : PromQuerierConfig) (acquire : Nat → Bool)
    (showTagFlag : Bool) (showTagsResult : Except String (List String))
    (req : ReadRequest) (q : PrompbQuery) (rest : List PrompbQuery)
    (pm : ParseMetricOut)
    (hacq : acquire 1000 = true)
    (hq : req.queries = q :: rest)
    (hpm : parseMetric q.matchers = .ok pm)
    (herr : pm.err = none) :
    promReaderBuild cfg acquire showTagFlag showTagsResult req =
      match (if showTagFlag then
              match showTagsResult with
              | .error e => .error e
              | .ok tagsArray => .ok (unixTimeExpr :: tagsArray, [], "")
            else if isNativeMetricsDb pm.db then
              aggSection pm.db pm.metricName q.hints
            else
              .ok ([unixTimeExpr], [], "")) with
      | .error e => .ok (.error ⟨pm.prefixType, "", "", "", some e⟩)
      | .ok (metricsArray0, groupBy, metricWithAggFunc) =>
        let metricsArray1 :=
          if pm.db == "" || pm.db == DB_NAME_EXT_METRICS ||
              pm.db == DB_NAME_DEEPFLOW_SYSTEM || pm.db == DB_NAME_PROMETHEUS then
            metricsArray0 ++ [goSprintf pm.metricAlias [pm.metricName],
              "`" ++ EXT_METRICS_NATIVE_TAG_NAME ++ "`"]
          else if metricWithAggFunc != "" then
            metricsArray0 ++ [goSprintf pm.metricAlias [metricWithAggFunc, pm.metricName]]
          else
            metricsArray0 ++ [goSprintf pm.metricAlias [pm.metricName, pm.metricName]]
        let loopResult := matcherLoop cfg pm.db q.matchers
        let filters :=
          ("(time >= " ++ toString (Int.tdiv q.hints.startMs 1000) ++ " AND time <= " ++
            toString (if Int.tmod q.endTimestampMs 1000 > 0
              then Int.tdiv q.hints.endMs 1000 + 1
              else Int.tdiv q.hints.endMs 1000) ++ ")") :: loopResult.1
        .ok (.ok ⟨pm.prefixType, pm.db, pm.table, pm.dataPrecision,
          metricsArray1 ++ loopResult.2, filters, groupBy⟩) := by
  unfold promReaderBuild
  rw [hacq]
  simp only [Bool.not_true, Bool.false_eq_true, if_false, hq, hpm, herr]

/-- C5: shape of every produced SQL statement. For any successful translation
(the build step returned SQL inputs `b`): the function's result is exactly
`parseToQuerierSQL` over `b` with no error; the first projection element is
`time(time, StepMs/1000) AS timestamp` precisely when the query is against a
native metrics db (grouping applies, showtag off) with `StepMs > 0`, and
`toUnixTimestamp(time) AS timestamp` otherwise; a non-empty GROUP BY list
starts with the alias `timestamp`; and the SQL string always ends with
`ORDER BY timestamp desc LIMIT <configured limit>`. -/
theorem promReaderTransToSQL_sql_shape (cfg : PromQuerierConfig)
    (acquire : Nat → Bool) (showTagFlag : Bool)
    (showTagsResult : Except String (List String)) (req : ReadRequest)
    (q : PrompbQuery) (rest : List PrompbQuery) (pm : ParseMetricOut)
    (b : PromSQLBuild)
    (hacq : acquire 1000 = true)
    (hq : req.queries = q :: rest)
    (hpm : parseMetric q.matchers = .ok pm)
    (herr : pm.err = none)
    (hb : promReaderBuild cfg acquire showTagFlag showTagsResult req = .ok (.ok b)) :
    promReaderTransToSQL cfg acquire showTagFlag showTagsResult req =
      .ok ⟨b.prefixType,
        parseToQuerierSQL b.db b.table b.metricsArray b.filters b.groupBy cfg.limit,
        b.db, b.dataPrecision, none⟩ ∧
    b.db = pm.db ∧
    b.metricsArray.head? = some
      (if showTagFlag = false ∧ isNativeMetricsDb pm.db = true ∧ q.hints.stepMs > 0
       then stepTimeExpr q.hints.stepMs else unixTimeExpr) ∧
    (b.groupBy = [] ∨ b.groupBy.head? = some EXT_METRICS_TIME_COLUMNS) ∧
    (∃ p, parseToQuerierSQL b.db b.table b.metricsArray b.filters b.groupBy cfg.limit =
      p ++ (" ORDER BY " ++ EXT_METRICS_TIME_COLUMNS ++ " desc LIMIT " ++ cfg.limit)) := by
  have hfirst : promReaderTransToSQL cfg acquire showTagFlag showTagsResult req =
      .ok ⟨b.prefixType,
        parseToQuerierSQL b.db b.table b.metricsArray b.filters b.groupBy cfg.limit,
        b.db, b.dataPrecision, none⟩ := by
    unfold promReaderTransToSQL
    rw [hb]
  have hlast : ∀ (db table : String) (ms fs gb : List String),
      ∃ p, parseToQuerierSQL db table ms fs gb cfg.limit =
        p ++ (" ORDER BY " ++ EXT_METRICS_TIME_COLUMNS ++ " desc LIMIT " ++ cfg.limit) := by
    intro db table ms fs gb
    unfold parseToQuerierSQL
    split
    · exact ⟨_, rfl⟩
    · exact ⟨_, rfl⟩
  refine ⟨hfirst, ?_⟩
  obtain ⟨bP, bDb, bTable, bPrec, bMa, bFil, bGb⟩ := b
  rw [promReaderBuild_reduce cfg acquire showTagFlag showTagsResult req q rest pm
    hacq hq hpm herr] at hb
  cases hshow : showTagFlag with
  | true =>
    rw [hshow] at hb
    simp only [if_true] at hb
    cases hst : showTagsResult with
    | error e =>
      rw [hst] at hb
      simp at hb
    | ok tagsArray =>
      rw [hst] at hb
      simp only at hb
      rw [Except.ok.injEq, Except.ok.injEq, PromSQLBuild.mk.injEq] at hb
      obtain ⟨h1, h2, h3, h4, h5, h6, h7⟩ := hb
      subst h2
      subst h5
      subst h7
      refine ⟨rfl, ?_, Or.inl rfl, hlast _ _ _ _ _⟩
      by_cases hc1 : (pm.db == "" || pm.db == DB_NAME_EXT_METRICS ||
          pm.db == DB_NAME_DEEPFLOW_SYSTEM || pm.db == DB_NAME_PROMETHEUS) = true
      · rw [if_pos hc1]
        simp
      · rw [if_neg hc1]
        by_cases hc2 : (("" : String) != "") = true
        · rw [if_pos hc2]
          simp
        · rw [if_neg hc2]
          simp
  | false =>
    rw [hshow] at hb
    simp only [Bool.false_eq_true, if_false] at hb
    cases hnat : isNativeMetricsDb pm.db with
    | true =>
      rw [hnat] at hb
      simp only [if_true] at hb
      cases hsec : aggSection pm.db pm.metricName q.hints with
      | error e =>
        rw [hsec] at hb
        simp at hb
      | ok v =>
        obtain ⟨ma0, gb0, mw⟩ := v
        rw [hsec] at hb
        simp only at hb
        rw [Except.ok.injEq, Except.ok.injEq, PromSQLBuild.mk.injEq] at hb
        obtain ⟨h1, h2, h3, h4, h5, h6, h7⟩ := hb
        subst h2
        subst h5
        subst h7
        obtain ⟨hma, hgb⟩ := aggSection_ok_shape pm.db pm.metricName q.hints ma0 gb0 mw hsec
        refine ⟨rfl, ?_, Or.inr hgb, hlast _ _ _ _ _⟩
        by_cases hc1 : (pm.db == "" || pm.db == DB_NAME_EXT_METRICS ||
            pm.db == DB_NAME_DEEPFLOW_SYSTEM || pm.db == DB_NAME_PROMETHEUS) = true
        · rw [if_pos hc1]
          exact Eq.trans
            (head?_append_left _ _ _ (head?_append_left _ _ _ hma)) (by simp)
        · rw [if_neg hc1]
          by_cases hc2 : (mw != "") = true
          · rw [if_pos hc2]
            exact Eq.trans
              (head?_append_left _ _ _ (head?_append_left _ _ _ hma)) (by simp)
          · rw [if_neg hc2]
            exact Eq.trans
              (head?_append_left _ _ _ (head?_append_left _ _ _ hma)) (by simp)
    | false =>
      rw [hnat] at hb
      simp only [Bool.false_eq_true, if_false] at hb
      rw [Except.ok.injEq, Except.ok.injEq, PromSQLBuild.mk.injEq] at hb
      obtain ⟨h1, h2, h3, h4, h5, h6, h7⟩ := hb
      subst h2
      subst h5
      subst h7
      refine ⟨rfl, ?_, Or.inl rfl, hlast _ _ _ _ _⟩
      by_cases hc1 : (pm.db == "" || pm.db == DB_NAME_EXT_METRICS ||
          pm.db == DB_NAME_DEEPFLOW_SYSTEM || pm.db == DB_NAME_PROMETHEUS) = true
      · rw [if_pos hc1]
        simp [hnat]
      · rw [if_neg hc1]
        by_cases hc2 : (("" : String) != "") = true
        · rw [if_pos hc2]
          simp [hnat]
        · rw [if_neg hc2]
          simp [hnat]

/-- Witness for C5's theorem at the S2 scenario. -/
theorem promReaderTransToSQL_sql_shape_witness :
    promReaderTransToSQL ⟨"100", "df_", false, 50⟩ (fun _ => true) false (.ok [])
        ⟨[s2Query]⟩ =
      .ok ⟨s2Build.prefixType,
        parseToQuerierSQL s2Build.db s2Build.table s2Build.metricsArray
          s2Build.filters s2Build.groupBy "100",
        s2Build.db, s2Build.dataPrecision, none⟩ ∧
    s2Build.db = s2ParseOut.db ∧
    s2Build.metricsArray.head? = some
      (if false = false ∧ isNativeMetricsDb s2ParseOut.db = true ∧ s2Query.hints.stepMs > 0
       then stepTimeExpr s2Query.hints.stepMs else unixTimeExpr) ∧
    (s2Build.groupBy = [] ∨ s2Build.groupBy.head? = some EXT_METRICS_TIME_COLUMNS) ∧
    (∃ p, parseToQuerierSQL s2Build.db s2Build.table s2Build.metricsArray
        s2Build.filters s2Build.groupBy "100" =
      p ++ (" ORDER BY " ++ EXT_METRICS_TIME_COLUMNS ++ " desc LIMIT " ++ "100")) :=
  promReaderTransToSQL_sql_shape ⟨"100", "df_", false, 50⟩ (fun _ => true) false
    (.ok []) ⟨[s2Query]⟩ s2Query [] s2ParseOut s2Build rfl rfl rfl rfl rfl

/-! ### Response builder (`respTransToProm`)

Querier rows are lists of cells; a cell is the Go `interface{}` value of one
column. Go `float64` and `time.Time` cells are represented by their rendered
strings (`strconv.FormatFloat(v,'f',-1,64)` / `Time.String()`), the only
observations the source makes of them. `json.Unmarshal` of the native-tag JSON
plus Go's map iteration is an explicit function parameter `parseTagJson`. -/

/-- C8 counterexample: with zero-values elided as the claim states, the two
rows of `zeroTagResult` get the same key (`""`), so the claim predicts one
series; the code keys them `"2-0"` and `"2-"` and builds two series. -/
theorem respTransToProm_key_elision_refuted :
    specSeriesKey (-1) [2] [.flt "1", .int 5, .int 0] =
      specSeriesKey (-1) [2] [.flt "1", .int 5, .null] ∧
    rowKey (-1) [2] [.flt "1", .int 5, .int 0] = .ok "2-0" ∧
    rowKey (-1) [2] [.flt "1", .int 5, .null] = .ok "2-" ∧
    respTransToProm ⟨"100", "df_", false, 10⟩ .prefixNone (fun _ => []) zeroTagResult =
      .ok (.ok ⟨[⟨[("__name__", "m")], [⟨5000, .raw "1"⟩]⟩,
                 ⟨[("__name__", "m")], [⟨5000, .raw "1"⟩]⟩]⟩) :=
  ⟨rfl, rfl, rfl, rfl⟩

/-- C6 counterexample: rows spanning three distinct series keys against
`SeriesLimit = 2` produce exactly two series — but with equal label sets,
refuting "no two returned series have the same label set". -/
theorem respTransToProm_series_limit_duplicate_labels :
    overflowResult.values.mapM (rowKey (-1) [2]) = .ok ["2-", "2-0", "2-x"] ∧
    (["2-", "2-0", "2-x"] : List String).toFinset.card = 3 ∧
    respTransToProm ⟨"100", "df_", false, 2⟩ .prefixNone (fun _ => []) overflowResult =
      .ok (.ok ⟨[⟨[("__name__", "m")], [⟨10000, .raw "1"⟩]⟩,
                 ⟨[("__name__", "m")], [⟨9000, .raw "1"⟩]⟩]⟩) ∧
    ([⟨[("__name__", "m")], [⟨10000, .raw "1"⟩]⟩,
      ⟨[("__name__", "m")], [⟨9000, .raw "1"⟩]⟩] : List PromSeries).length = 2 ∧
    (⟨[("__name__", "m")], [⟨10000, .raw "1"⟩]⟩ : PromSeries).labels =
      (⟨[("__name__", "m")], [⟨9000, .raw "1"⟩]⟩ : PromSeries).labels :=
  ⟨rfl, by decide, rfl, rfl, rfl⟩

/-- C7 counterexample: the rows are (non-strictly) time-descending and pass
the translator's second-granularity filter for `StartMs = 1500, EndMs = 2000`
(`startTime = 1500/1000 = 1`), yet the resulting series holds samples
`[1000, 1000]` — not strictly ascending, and both below `StartMs = 1500`,
outside the claim's `[startMs, endMs]` window. -/
theorem respTransToProm_samples_not_strict_or_in_window :
    List.Pairwise (fun a b => a ≥ b) [(1 : Int), 1] ∧
    Int.tdiv 1500 1000 = 1 ∧
    ((1 : Int) ≥ 1 ∧ (1 : Int) ≤ 2) ∧
    respTransToProm ⟨"100", "df_", false, 10⟩ .prefixNone (fun _ => []) tieResult =
      .ok (.ok ⟨[⟨[("c", "x"), ("__name__", "m")],
                 [⟨1000, .raw "2"⟩, ⟨1000, .raw "1"⟩]⟩]⟩) ∧
    ¬ List.Pairwise (fun a b => a < b) [(1000 : Int), 1000] ∧
    ¬ (1500 ≤ (1000 : Int)) :=
  ⟨by decide, by decide, by decide, rfl, by decide, by decide⟩

theorem allocKeysFrom_cons (limit : Nat) (acc : List String) (k : String)
    (ks : List String) :
    allocKeysFrom limit acc (k :: ks) =
      allocKeysFrom limit (allocKeysStep limit acc k) ks := rfl

theorem enumKeysAux_length (i : Nat) (A : List String) :
    (enumKeysAux i A).length = A.length := by
  induction A generalizing i with
  | nil => rfl
  | cons a A ih => simp [enumKeysAux, ih]

theorem mapLookup_enumKeysAux (A : List String) (i : Nat) (k : String) :
    mapLookup (enumKeysAux i A) k =
      (keyIndex A k).map (fun j => Int.ofNat (i + j)) := by
  induction A generalizing i with
  | nil => rfl
  | cons a A ih =>
    by_cases h : (a == k) = true
    · simp [mapLookup, enumKeysAux, keyIndex, List.find?, h]
    · have h' : (a == k) = false := by
        cases hab : (a == k)
        · rfl
        · exact absurd hab h
      simp only [enumKeysAux]
      rw [keyIndex, if_neg h]
      have hfind : mapLookup ((a, Int.ofNat i) :: enumKeysAux (i + 1) A) k =
          mapLookup (enumKeysAux (i + 1) A) k := by
        simp [mapLookup, List.find?, h']
      rw [hfind, ih (i + 1)]
      cases hk : keyIndex A k with
      | none => simp
      | some j =>
        show some (Int.ofNat (i + 1 + j)) = some (Int.ofNat (i + (j + 1)))
        rw [show i + 1 + j = i + (j + 1) from by omega]

theorem keyIndex_none_iff (A : List String) (k : String) :
    keyIndex A k = none ↔ k ∉ A := by
  induction A with
  | nil => simp [keyIndex]
  | cons a A ih =>
    by_cases h : (a == k) = true
    · have hak : a = k := by simpa using h
      subst hak
      simp [keyIndex, h]
    · have hne : a ≠ k := by
        intro he
        exact h (by simp [he])
      rw [keyIndex, if_neg h]
      constructor
      · intro hmap hmem
        have hnone : keyIndex A k = none := by
          cases hk : keyIndex A k
          · rfl
          · rw [hk] at hmap; exact absurd hmap (by simp)
        rcases List.mem_cons.mp hmem with he | hm
        · exact hne he.symm
        · exact (ih.mp hnone) hm
      · intro hmem
        rw [ih.mpr (fun hm => hmem (List.mem_cons_of_mem a hm))]
        rfl

theorem keyIndex_get (A : List String) (k : String) (a : Nat)
    (h : keyIndex A k = some a) : ∃ ha : a < A.length, A.get ⟨a, ha⟩ = k := by
  induction A generalizing a with
  | nil => exact absurd h (by simp [keyIndex])
  | cons hd tl ih =>
    by_cases hb : (hd == k) = true
    · have hdk : hd = k := by simpa using hb
      rw [keyIndex, if_pos hb] at h
      obtain rfl : a = 0 := by simpa using h.symm
      exact ⟨by simp, hdk⟩
    · rw [keyIndex, if_neg hb] at h
      cases hk : keyIndex tl k with
      | none => rw [hk] at h; exact absurd h (by simp)
      | some b =>
        rw [hk] at h
        obtain rfl : a = b + 1 := by simpa using h.symm
        obtain ⟨hb', hget⟩ := ih b hk
        exact ⟨by simpa using Nat.succ_lt_succ hb', by simpa using hget⟩

theorem keyIndex_append_left (A B : List String) (k : String) (i : Nat)
    (h : keyIndex A k = some i) : keyIndex (A ++ B) k = some i := by
  induction A generalizing i with
  | nil => exact absurd h (by simp [keyIndex])
  | cons a A ih =>
    by_cases hb : (a == k) = true
    · rw [keyIndex, if_pos hb] at h
      rw [List.cons_append, keyIndex, if_pos hb]
      exact h
    · rw [keyIndex, if_neg hb] at h
      cases hk : keyIndex A k with
      | none => rw [hk] at h; exact absurd h (by simp)
      | some b =>
        rw [hk] at h
        obtain rfl : i = b + 1 := by simpa using h.symm
        rw [List.cons_append, keyIndex, if_neg hb]
        simp [ih b hk]

theorem keyIndex_append_of_not_mem (A B : List String) (k : String)
    (h : k ∉ A) :
    keyIndex (A ++ B) k = (keyIndex B k).map (· + A.length) := by
  induction A with
  | nil =>
    simp only [List.nil_append]
    cases keyIndex B k <;> simp
  | cons a A ih =>
    have hne : a ≠ k := fun he => h (by simp [he])
    rw [List.cons_append, keyIndex, if_neg (by simpa using hne)]
    rw [ih (fun hm => h (List.mem_cons_of_mem a hm))]
    cases keyIndex B k with
    | none => simp
    | some j =>
      simp [Nat.add_assoc]

theorem allocKeysStep_isPrefixOfStep (limit : Nat) (acc : List String) (k : String) :
    acc.IsPrefix (allocKeysStep limit acc k) := by
  unfold allocKeysStep
  cases keyIndex acc k with
  | some i => exact List.prefix_refl acc
  | none =>
    by_cases hfull : limit ≤ acc.length
    · rw [if_pos hfull]
    · rw [if_neg hfull]; exact List.prefix_append acc [k]

theorem allocKeysFrom_isPrefixOfRun (limit : Nat) (acc : List String) (ks : List String) :
    acc.IsPrefix (allocKeysFrom limit acc ks) := by
  induction ks generalizing acc with
  | nil => exact List.prefix_refl acc
  | cons k ks ih =>
    rw [allocKeysFrom_cons]
    exact List.IsPrefix.trans (allocKeysStep_isPrefixOfStep limit acc k) (ih _)

theorem allocKeysFrom_full (limit : Nat) (acc : List String) (ks : List String)
    (h : limit ≤ acc.length) : allocKeysFrom limit acc ks = acc := by
  induction ks with
  | nil => rfl
  | cons k ks ih =>
    rw [allocKeysFrom_cons]
    have hstep : allocKeysStep limit acc k = acc := by
      unfold allocKeysStep
      cases keyIndex acc k with
      | some i => rfl
      | none => exact if_pos h
    rw [hstep]
    exact ih

theorem allocKeysFrom_length_le (limit : Nat) (acc : List String)
    (ks : List String) (h : acc.length ≤ limit) :
    (allocKeysFrom limit acc ks).length ≤ limit := by
  induction ks generalizing acc with
  | nil => exact h
  | cons k ks ih =>
    rw [allocKeysFrom_cons]
    refine ih _ ?_
    unfold allocKeysStep
    cases keyIndex acc k with
    | some i => exact h
    | none =>
      by_cases hfull : limit ≤ acc.length
      · rw [if_pos hfull]; exact h
      · rw [if_neg hfull]
        simp only [List.length_append, List.length_singleton]
        omega

theorem allocKeysFrom_nodup (limit : Nat) (acc : List String)
    (ks : List String) (h : acc.Nodup) : (allocKeysFrom limit acc ks).Nodup := by
  induction ks generalizing acc with
  | nil => exact h
  | cons k ks ih =>
    rw [allocKeysFrom_cons]
    refine ih _ ?_
    unfold allocKeysStep
    cases hki : keyIndex acc k with
    | some i => exact h
    | none =>
      by_cases hfull : limit ≤ acc.length
      · rw [if_pos hfull]; exact h
      · rw [if_neg hfull]
        have hns : k ∉ acc := (keyIndex_none_iff acc k).mp hki
        rw [List.nodup_append]
        exact ⟨h, List.nodup_singleton k,
          fun x hx hx1 => hns (by rwa [List.mem_singleton.mp hx1] at hx)⟩

theorem allocKeysFrom_mem_of_lt (limit : Nat) (acc : List String)
    (ks : List String) (h : (allocKeysFrom limit acc ks).length < limit) :
    ∀ k ∈ ks, k ∈ allocKeysFrom limit acc ks := by
  induction ks generalizing acc with
  | nil => intro k hk; exact absurd hk (List.not_mem_nil k)
  | cons k0 ks ih =>
    intro k hk
    rw [allocKeysFrom_cons] at h ⊢
    rcases List.mem_cons.mp hk with he | hm
    · subst he
      refine (allocKeysFrom_isPrefixOfRun limit _ ks).subset ?_
      unfold allocKeysStep
      cases hki : keyIndex acc k with
      | some i =>
        obtain ⟨ha, hget⟩ := keyIndex_get acc k i hki
        exact hget ▸ List.get_mem acc i ha
      | none =>
        by_cases hfull : limit ≤ acc.length
        · exfalso
          have hpre := allocKeysFrom_isPrefixOfRun limit (allocKeysStep limit acc k) ks
          have hlen := hpre.length_le
          have hstep : allocKeysStep limit acc k = acc := by
            unfold allocKeysStep
            rw [hki, if_pos hfull]
          rw [hstep] at hlen h
          omega
        · rw [if_neg hfull]
          exact List.mem_append_right acc (List.mem_singleton_self k)
    · exact ih _ h k hm

theorem allocKeysFrom_length_of_card (limit : Nat) (ks : List String)
    (h : limit < ks.toFinset.card) :
    (allocKeysFrom limit [] ks).length = limit := by
  have hle : (allocKeysFrom limit [] ks).length ≤ limit :=
    allocKeysFrom_length_le limit [] ks (Nat.zero_le limit)
  by_contra hne
  have hlt : (allocKeysFrom limit [] ks).length < limit := by omega
  have hmem := allocKeysFrom_mem_of_lt limit [] ks hlt
  have hsub : ks.toFinset ⊆ (allocKeysFrom limit [] ks).toFinset := by
    intro x hx
    exact List.mem_toFinset.mpr (hmem x (List.mem_toFinset.mp hx))
  have hcard := Finset.card_le_card hsub
  have hnd : (allocKeysFrom limit [] ks).Nodup :=
    allocKeysFrom_nodup limit [] ks List.nodup_nil
  rw [List.toFinset_card_of_nodup hnd] at hcard
  omega

theorem enumKeysAux_append (i : Nat) (A B : List String) :
    enumKeysAux i (A ++ B) = enumKeysAux i A ++ enumKeysAux (i + A.length) B := by
  induction A generalizing i with
  | nil => simp [enumKeysAux]
  | cons a A ih =>
    rw [List.cons_append]
    show (a, Int.ofNat i) :: enumKeysAux (i + 1) (A ++ B) = _
    rw [ih (i + 1)]
    simp only [enumKeysAux, List.cons_append, List.length_cons]
    rw [show i + 1 + A.length = i + (A.length + 1) from by omega]

theorem exceptBind_ok {α β ε : Type} (a : α) (f : α → Except ε β) :
    (Except.ok a >>= f) = f a := rfl

theorem exceptBind_error {α β ε : Type} (e : ε) (f : α → Except ε β) :
    ((Except.error e : Except ε α) >>= f) = Except.error e := rfl

theorem exceptPure {α ε : Type} (a : α) :
    (pure a : Except ε α) = Except.ok a := rfl

/-- The first pass resolved against the allocation specification: the keys
are the row keys, the final map enumerates the allocated keys, each allocated
series starts with no samples, and each row's recorded series index is the
position of its key among the allocated keys (`-1` when the key was never
allocated). -/
theorem firstPass_spec (ctx : RespCtx) (rows : List (List CellValue))
    (A : List String) (st stF : FPState) (idxs : List Int)
    (hmap : st.seriesIndexMap = enumKeysAux 0 A)
    (hinit : st.initialSeriesIndex = Int.ofNat A.length)
    (harr : st.seriesArray.length = A.length)
    (hsamp : ∀ s ∈ st.seriesArray, s.samples = [])
    (hres : firstPass ctx rows st = .ok (stF, idxs)) :
    ∃ ks, rows.mapM (rowKey ctx.tagIndex ctx.allTags) = .ok ks ∧
      stF.seriesIndexMap = enumKeysAux 0 (allocKeysFrom ctx.seriesLimit A ks) ∧
      stF.seriesArray.length = (allocKeysFrom ctx.seriesLimit A ks).length ∧
      (∀ s ∈ stF.seriesArray, s.samples = []) ∧
      idxs = ks.map (fun k =>
        match keyIndex (allocKeysFrom ctx.seriesLimit A ks) k with
        | some i => Int.ofNat i
        | none => -1) := by
  induction rows generalizing A st stF idxs with
  | nil =>
    rw [firstPass, Except.ok.injEq, Prod.mk.injEq] at hres
    obtain ⟨h1, h2⟩ := hres
    subst h1
    subst h2
    exact ⟨[], rfl, hmap, harr, hsamp, rfl⟩
  | cons r rest ih =>
    rw [firstPass] at hres
    cases hk : rowKey ctx.tagIndex ctx.allTags r with
    | error p =>
      rw [hk, exceptBind_error] at hres
      exact Except.noConfusion hres
    | ok key =>
      rw [hk, exceptBind_ok] at hres
      split at hres
      · rename_i idx heq
        rw [hmap, mapLookup_enumKeysAux] at heq
        cases hki : keyIndex A key with
        | none => rw [hki] at heq; exact absurd heq (by simp)
        | some i =>
          rw [hki, Option.map_some'] at heq
          obtain rfl : idx = Int.ofNat i := by simpa using heq.symm
          cases hrec : firstPass ctx rest
              { st with seriesSampleCount := listIncr st.seriesSampleCount (Int.ofNat i).toNat } with
          | error p =>
            rw [hrec, exceptBind_error] at hres
            exact Except.noConfusion hres
          | ok q =>
            obtain ⟨st₂, I₂⟩ := q
            rw [hrec, exceptBind_ok] at hres
            have hres' : (Except.ok (st₂, Int.ofNat i :: I₂) :
                Except GoPanic (FPState × List Int)) = .ok (stF, idxs) := hres
            rw [Except.ok.injEq, Prod.mk.injEq] at hres'
            obtain ⟨h1, h2⟩ := hres'
            subst h1
            subst h2
            obtain ⟨ks, hmapM, hEnum, hLen, hSamp, hIdx⟩ :=
              ih A ⟨st.seriesIndexMap, st.seriesArray,
                listIncr st.seriesSampleCount (Int.ofNat i).toNat,
                st.initialSeriesIndex⟩ st₂ I₂ hmap hinit harr hsamp hrec
            have hstep : allocKeysStep ctx.seriesLimit A key = A := by
              unfold allocKeysStep
              rw [hki]
            refine ⟨key :: ks, ?_, ?_, ?_, hSamp, ?_⟩
            · rw [List.mapM_cons, hk, exceptBind_ok, hmapM, exceptBind_ok, exceptPure]
            · rw [allocKeysFrom_cons, hstep]
              exact hEnum
            · rw [allocKeysFrom_cons, hstep]
              exact hLen
            · rw [allocKeysFrom_cons, hstep, List.map_cons, ← hIdx]
              obtain ⟨B, hB⟩ := allocKeysFrom_isPrefixOfRun ctx.seriesLimit A ks
              rw [← hB, keyIndex_append_left A B key i hki]
      · rename_i heq
        rw [hmap, mapLookup_enumKeysAux] at heq
        have hki : keyIndex A key = none := by
          cases hkk : keyIndex A key
          · rfl
          · rw [hkk] at heq; exact absurd heq (by simp)
        split at hres
        · rename_i hcond
          rw [hmap, enumKeysAux_length] at hcond
          cases hrec : firstPass ctx rest st with
          | error p =>
            rw [hrec, exceptBind_error] at hres
            exact Except.noConfusion hres
          | ok q =>
            obtain ⟨st₂, I₂⟩ := q
            rw [hrec, exceptBind_ok] at hres
            have hres' : (Except.ok (st₂, (-1 : Int) :: I₂) :
                Except GoPanic (FPState × List Int)) = .ok (stF, idxs) := hres
            rw [Except.ok.injEq, Prod.mk.injEq] at hres'
            obtain ⟨h1, h2⟩ := hres'
            subst h1
            subst h2
            obtain ⟨ks, hmapM, hEnum, hLen, hSamp, hIdx⟩ :=
              ih A st st₂ I₂ hmap hinit harr hsamp hrec
            have hstep : allocKeysStep ctx.seriesLimit A key = A := by
              unfold allocKeysStep
              rw [hki, if_pos hcond]
            refine ⟨key :: ks, ?_, ?_, ?_, hSamp, ?_⟩
            · rw [List.mapM_cons, hk, exceptBind_ok, hmapM, exceptBind_ok, exceptPure]
            · rw [allocKeysFrom_cons, hstep]
              exact hEnum
            · rw [allocKeysFrom_cons, hstep]
              exact hLen
            · rw [allocKeysFrom_cons, hstep, List.map_cons, ← hIdx]
              rw [allocKeysFrom_full ctx.seriesLimit A ks hcond, hki]
        · rename_i hcond
          rw [hmap, enumKeysAux_length] at hcond
          cases hsl : seriesLabels ctx.pfx ctx.autoTaggingPrefix ctx.parseTagJson
              ctx.columns ctx.tagIndex ctx.allTags ctx.metricsName r with
          | error p =>
            rw [hsl, exceptBind_error] at hres
            exact Except.noConfusion hres
          | ok pairs =>
            rw [hsl, exceptBind_ok] at hres
            cases hrec : firstPass ctx rest
                { seriesIndexMap := st.seriesIndexMap ++ [(key, st.initialSeriesIndex)],
                  seriesArray := st.seriesArray ++ [⟨pairs, []⟩],
                  seriesSampleCount := st.seriesSampleCount ++ [1],
                  initialSeriesIndex := st.initialSeriesIndex + 1 } with
          | error p =>
            rw [hrec, exceptBind_error] at hres
            exact Except.noConfusion hres
          | ok q =>
            obtain ⟨st₂, I₂⟩ := q
            rw [hrec, exceptBind_ok] at hres
            have hres' : (Except.ok (st₂, st.initialSeriesIndex :: I₂) :
                Except GoPanic (FPState × List Int)) = .ok (stF, idxs) := hres
            rw [Except.ok.injEq, Prod.mk.injEq] at hres'
            obtain ⟨h1, h2⟩ := hres'
            subst h1
            subst h2
            have hknotin : key ∉ A := (keyIndex_none_iff A key).mp hki
            obtain ⟨ks, hmapM, hEnum, hLen, hSamp, hIdx⟩ :=
              ih (A ++ [key])
                ⟨st.seriesIndexMap ++ [(key, st.initialSeriesIndex)],
                 st.seriesArray ++ [⟨pairs, []⟩],
                 st.seriesSampleCount ++ [1],
                 st.initialSeriesIndex + 1⟩ st₂ I₂
                (by
                  show st.seriesIndexMap ++ [(key, st.initialSeriesIndex)] = _
                  rw [hmap, hinit, enumKeysAux_append]
                  simp [enumKeysAux])
                (by
                  show st.initialSeriesIndex + 1 = _
                  rw [hinit]
                  simp only [List.length_append, List.length_singleton,
                    Int.ofNat_eq_natCast]
                  omega)
                (by
                  show (st.seriesArray ++ [(⟨pairs, []⟩ : PromSeries)]).length = _
                  simp [harr])
                (by
                  intro s hs
                  rcases List.mem_append.mp hs with hs1 | hs2
                  · exact hsamp s hs1
                  · rw [List.mem_singleton.mp hs2])
                hrec
            have hstep : allocKeysStep ctx.seriesLimit A key = A ++ [key] := by
              unfold allocKeysStep
              rw [hki, if_neg hcond]
            refine ⟨key :: ks, ?_, ?_, ?_, hSamp, ?_⟩
            · rw [List.mapM_cons, hk, exceptBind_ok, hmapM, exceptBind_ok, exceptPure]
            · rw [allocKeysFrom_cons, hstep]
              exact hEnum
            · rw [allocKeysFrom_cons, hstep]
              exact hLen
            · rw [allocKeysFrom_cons, hstep, List.map_cons, ← hIdx]
              obtain ⟨B, hB⟩ := allocKeysFrom_isPrefixOfRun ctx.seriesLimit (A ++ [key]) ks
              rw [← hB, List.append_assoc, List.singleton_append,
                keyIndex_append_of_not_mem A (key :: B) key hknotin,
                keyIndex, if_pos (beq_self_eq_true key), Option.map_some']
              rw [hinit]
              norm_num

theorem appendSampleAt_length (series : List PromSeries) (idx : Nat)
    (s : PromSample) (out : List PromSeries)
    (h : appendSampleAt series idx s = .ok out) : out.length = series.length := by
  induction series generalizing idx out with
  | nil => exact absurd h (by simp [appendSampleAt])
  | cons x xs ih =>
    cases idx with
    | zero =>
      rw [appendSampleAt, Except.ok.injEq] at h
      rw [← h]
      simp
    | succ n =>
      rw [appendSampleAt] at h
      cases hr : appendSampleAt xs n s with
      | error p => rw [hr] at h; exact Except.noConfusion h
      | ok xs' =>
        rw [hr, Except.ok.injEq] at h
        rw [← h]
        simp [ih n xs' hr]

theorem secondPassAux_length (metricsType : String) (metricsIndex timeIndex : Nat)
    (lst : List (List CellValue × Int)) (series out : List PromSeries)
    (h : secondPassAux metricsType metricsIndex timeIndex lst series = .ok (.ok out)) :
    out.length = series.length := by
  induction lst generalizing series with
  | nil =>
    rw [secondPassAux, Except.ok.injEq, Except.ok.injEq] at h
    rw [h]
  | cons p lst ih =>
    obtain ⟨r, sIdx⟩ := p
    rw [secondPassAux] at h
    by_cases hskip : (sIdx == -1) = true
    · rw [if_pos hskip] at h
      exact ih series h
    · rw [if_neg hskip] at h
      split at h
      · exact Except.noConfusion h
      · split at h
        · exact Except.noConfusion h
        · rw [Except.ok.injEq] at h
          exact Except.noConfusion h
        · exact ih series h
        · split at h
          · exact Except.noConfusion h
          · split at h
            · exact Except.noConfusion h
            · rename_i series2 ha
              rw [ih series2 h]
              exact appendSampleAt_length series sIdx.toNat _ series2 ha
          · exact Except.noConfusion h

/-- Rows recorded with series index `-1` are skipped: the second pass sees
only the rows whose index is not `-1`. -/
theorem secondPassAux_filter (metricsType : String) (metricsIndex timeIndex : Nat)
    (lst : List (List CellValue × Int)) (series : List PromSeries) :
    secondPassAux metricsType metricsIndex timeIndex
        (lst.filter fun p => !(p.2 == -1)) series =
      secondPassAux metricsType metricsIndex timeIndex lst series := by
  induction lst generalizing series with
  | nil => rfl
  | cons p lst ih =>
    obtain ⟨r, sIdx⟩ := p
    by_cases hskip : (sIdx == -1) = true
    · rw [List.filter_cons]
      have : (!(sIdx == -1)) = false := by rw [hskip]; rfl
      rw [this]
      simp only [Bool.false_eq_true, if_false]
      rw [ih series]
      conv_rhs => rw [secondPassAux]
      rw [if_pos hskip]
    · rw [List.filter_cons]
      have : (!(sIdx == -1)) = true := by
        cases hb : (sIdx == -1)
        · rfl
        · exact absurd hb hskip
      rw [this]
      simp only [if_true]
      conv_lhs => rw [secondPassAux]
      conv_rhs => rw [secondPassAux]
      rw [if_neg hskip, if_neg hskip]
      split
      · rfl
      · split
        · rfl
        · rfl
        · exact ih series
        · split
          · rfl
          · split
            · rfl
            · rename_i series2 ha
              exact ih series2
          · rfl

theorem mapLookup_some_mem (m : List (String × Int)) (k : String) (v : Int)
    (h : mapLookup m k = some v) : ∃ p ∈ m, p.2 = v := by
  unfold mapLookup at h
  cases hf : m.find? (fun p => p.1 == k) with
  | none => rw [hf] at h; exact absurd h (by simp)
  | some q =>
    rw [hf, Option.map_some'] at h
    exact ⟨q, List.mem_of_find?_eq_some hf, by simpa using h⟩

/-- Rows whose recorded series index is `-1` pass through the first pass
without any effect: dropping them gives the same final state, and the
remaining rows keep their indices. -/
theorem firstPass_filter (ctx : RespCtx) (rows : List (List CellValue))
    (st stF : FPState) (idxs : List Int)
    (hinit0 : 0 ≤ st.initialSeriesIndex)
    (hvals : ∀ p ∈ st.seriesIndexMap, 0 ≤ p.2)
    (hres : firstPass ctx rows st = .ok (stF, idxs)) :
    firstPass ctx (((rows.zip idxs).filter fun p => !(p.2 == -1)).map Prod.fst) st
      = .ok (stF, idxs.filter fun x => !(x == -1)) := by
  induction rows generalizing st stF idxs with
  | nil =>
    rw [firstPass, Except.ok.injEq, Prod.mk.injEq] at hres
    obtain ⟨h1, h2⟩ := hres
    subst h1
    subst h2
    rfl
  | cons r rest ih =>
    rw [firstPass] at hres
    cases hk : rowKey ctx.tagIndex ctx.allTags r with
    | error p =>
      rw [hk, exceptBind_error] at hres
      exact Except.noConfusion hres
    | ok key =>
      rw [hk, exceptBind_ok] at hres
      split at hres
      · rename_i idx heq
        obtain ⟨q, hqmem, hq2⟩ := mapLookup_some_mem st.seriesIndexMap key idx heq
        have hidx : 0 ≤ idx := hq2 ▸ hvals q hqmem
        have hne' : (idx == -1) = false := by
          rw [beq_eq_false_iff_ne]
          omega
        cases hrec : firstPass ctx rest
            { st with seriesSampleCount := listIncr st.seriesSampleCount idx.toNat } with
        | error p =>
          rw [hrec, exceptBind_error] at hres
          exact Except.noConfusion hres
        | ok q2 =>
          obtain ⟨st₂, I₂⟩ := q2
          rw [hrec, exceptBind_ok] at hres
          have hres' : (Except.ok (st₂, idx :: I₂) :
              Except GoPanic (FPState × List Int)) = .ok (stF, idxs) := hres
          rw [Except.ok.injEq, Prod.mk.injEq] at hres'
          obtain ⟨h1, h2⟩ := hres'
          subst h1
          subst h2
          have ihres := ih ⟨st.seriesIndexMap, st.seriesArray,
            listIncr st.seriesSampleCount idx.toNat, st.initialSeriesIndex⟩
            st₂ I₂ hinit0 hvals hrec
          simp only [List.zip_cons_cons, List.filter_cons, hne', Bool.not_false,
            if_true, List.map_cons]
          rw [firstPass, hk, exceptBind_ok, heq]
          simp only []
          rw [ihres, exceptBind_ok]
          rfl
      · rename_i heq
        split at hres
        · rename_i hcond
          cases hrec : firstPass ctx rest st with
          | error p =>
            rw [hrec, exceptBind_error] at hres
            exact Except.noConfusion hres
          | ok q2 =>
            obtain ⟨st₂, I₂⟩ := q2
            rw [hrec, exceptBind_ok] at hres
            have hres' : (Except.ok (st₂, (-1 : Int) :: I₂) :
                Except GoPanic (FPState × List Int)) = .ok (stF, idxs) := hres
            rw [Except.ok.injEq, Prod.mk.injEq] at hres'
            obtain ⟨h1, h2⟩ := hres'
            subst h1
            subst h2
            have hm1 : ((-1 : Int) == -1) = true := by decide
            simp only [List.zip_cons_cons, List.filter_cons, hm1, Bool.not_true,
              Bool.false_eq_true, if_false]
            exact ih st st₂ I₂ hinit0 hvals hrec
        · rename_i hcond
          cases hsl : seriesLabels ctx.pfx ctx.autoTaggingPrefix ctx.parseTagJson
              ctx.columns ctx.tagIndex ctx.allTags ctx.metricsName r with
          | error p =>
            rw [hsl, exceptBind_error] at hres
            exact Except.noConfusion hres
          | ok pairs =>
            rw [hsl, exceptBind_ok] at hres
            cases hrec : firstPass ctx rest
                { seriesIndexMap := st.seriesIndexMap ++ [(key, st.initialSeriesIndex)],
                  seriesArray := st.seriesArray ++ [⟨pairs, []⟩],
                  seriesSampleCount := st.seriesSampleCount ++ [1],
                  initialSeriesIndex := st.initialSeriesIndex + 1 } with
            | error p =>
              rw [hrec, exceptBind_error] at hres
              exact Except.noConfusion hres
            | ok q2 =>
              obtain ⟨st₂, I₂⟩ := q2
              rw [hrec, exceptBind_ok] at hres
              have hres' : (Except.ok (st₂, st.initialSeriesIndex :: I₂) :
                  Except GoPanic (FPState × List Int)) = .ok (stF, idxs) := hres
              rw [Except.ok.injEq, Prod.mk.injEq] at hres'
              obtain ⟨h1, h2⟩ := hres'
              subst h1
              subst h2
              have hne' : (st.initialSeriesIndex == -1) = false := by
                rw [beq_eq_false_iff_ne]
                omega
              have ihres := ih
                ⟨st.seriesIndexMap ++ [(key, st.initialSeriesIndex)],
                 st.seriesArray ++ [⟨pairs, []⟩],
                 st.seriesSampleCount ++ [1],
                 st.initialSeriesIndex + 1⟩ st₂ I₂
                (by show 0 ≤ st.initialSeriesIndex + 1; omega)
                (by
                  intro p hp
                  rcases List.mem_append.mp hp with hp1 | hp2
                  · exact hvals p hp1
                  · rw [List.mem_singleton.mp hp2]
                    exact hinit0)
                hrec
              simp only [List.zip_cons_cons, List.filter_cons, hne', Bool.not_false,
                if_true, List.map_cons]
              rw [firstPass, hk, exceptBind_ok, heq]
              simp only []
              rw [if_neg hcond, hsl, exceptBind_ok, ihres, exceptBind_ok]
              rfl

theorem zip_filter_keyIndex (AF : List String) (rows : List (List CellValue))
    (ks : List String) :
    (((rows.zip (ks.map fun k => match keyIndex AF k with
        | some i => Int.ofNat i
        | none => -1)).filter fun p => !(p.2 == -1)).map Prod.fst)
      = (((rows.zip ks).filter fun p => (keyIndex AF p.2).isSome).map Prod.fst) := by
  induction rows generalizing ks with
  | nil => rfl
  | cons r rows ih =>
    cases ks with
    | nil => rfl
    | cons k ks =>
      simp only [List.map_cons, List.zip_cons_cons, List.filter_cons]
      cases hki : keyIndex AF k with
      | none =>
        simp only [hki, beq_self_eq_true, Bool.not_true, Bool.false_eq_true,
          if_false, Option.isSome_none]
        exact ih ks
      | some i =>
        have hne : (Int.ofNat i == -1) = false := by
          rw [beq_eq_false_iff_ne, Int.ofNat_eq_natCast]
          omega
        simp only [hki, hne, Option.isSome_some, Bool.not_false,
          eq_self_iff_true, if_true, List.map_cons]
        rw [ih ks]

theorem zip_filter_neg1 {α : Type} (rows : List α) (idxs : List Int) :
    ((((rows.zip idxs).filter fun p => !(p.2 == -1)).map Prod.fst).zip
        (idxs.filter fun x => !(x == -1)))
      = (rows.zip idxs).filter fun p => !(p.2 == -1) := by
  induction rows generalizing idxs with
  | nil => rfl
  | cons r rows ih =>
    cases idxs with
    | nil => rfl
    | cons i idxs =>
      simp only [List.zip_cons_cons, List.filter_cons]
      by_cases hq : (i == -1) = true
      · simp [hq, ih idxs]
      · have hq' : (i == -1) = false := by
          cases hb : (i == -1)
          · rfl
          · exact absurd hb hq
        simp [hq', ih idxs]

/-- Inversion of a successful `respTransToProm` run into its three stages. -/
theorem respTransToProm_ok_inv (cfg : PromQuerierConfig) (pfx : PrefixKind)
    (pj : String → List (String × String)) (result : QuerierResult)
    (resp : PromReadResponse)
    (hres : respTransToProm cfg pfx pj result = .ok (.ok resp)) :
    ∃ metricsType st idxs series,
      ¬((classifyColumns result.columns).metricsIndex < 0 ∨
        (classifyColumns result.columns).timeIndex < 0) ∧
      result.schemas.get? (classifyColumns result.columns).metricsIndex.toNat =
        some metricsType ∧
      firstPass ⟨pfx, cfg.autoTaggingPrefix, pj, result.columns,
          (classifyColumns result.columns).tagIndex,
          (classifyColumns result.columns).metricsName,
          allDeepFlowNativeTags (classifyColumns result.columns)
            result.columns.length,
          cfg.seriesLimit⟩ result.values ⟨[], [], [], 0⟩ = .ok (st, idxs) ∧
      secondPassAux metricsType (classifyColumns result.columns).metricsIndex.toNat
        (classifyColumns result.columns).timeIndex.toNat
        ((result.values.zip idxs).reverse) st.seriesArray = .ok (.ok series) ∧
      resp = ⟨series⟩ := by
  simp only [respTransToProm] at hres
  split at hres
  · rw [Except.ok.injEq] at hres
    exact Except.noConfusion hres
  · rename_i hguard
    split at hres
    · exact Except.noConfusion hres
    · rename_i metricsType hschema
      split at hres
      · exact Except.noConfusion hres
      · rename_i st idxs hfp
        split at hres
        · exact Except.noConfusion hres
        · rw [Except.ok.injEq] at hres
          exact Except.noConfusion hres
        · rename_i series hsp
          rw [Except.ok.injEq, Except.ok.injEq] at hres
          exact ⟨metricsType, st, idxs, series, hguard, hschema, hfp, hsp, hres.symm⟩

/-- Assembly of `respTransToProm` from its three stages. -/
theorem respTransToProm_ok_build (cfg : PromQuerierConfig) (pfx : PrefixKind)
    (pj : String → List (String × String)) (result : QuerierResult)
    (metricsType : String) (st : FPState) (idxs : List Int)
    (series : List PromSeries)
    (hguard : ¬((classifyColumns result.columns).metricsIndex < 0 ∨
      (classifyColumns result.columns).timeIndex < 0))
    (hschema : result.schemas.get? (classifyColumns result.columns).metricsIndex.toNat =
      some metricsType)
    (hfp : firstPass ⟨pfx, cfg.autoTaggingPrefix, pj, result.columns,
        (classifyColumns result.columns).tagIndex,
        (classifyColumns result.columns).metricsName,
        allDeepFlowNativeTags (classifyColumns result.columns)
          result.columns.length,
        cfg.seriesLimit⟩ result.values ⟨[], [], [], 0⟩ = .ok (st, idxs))
    (hsp : secondPassAux metricsType (classifyColumns result.columns).metricsIndex.toNat
      (classifyColumns result.columns).timeIndex.toNat
      ((result.values.zip idxs).reverse) st.seriesArray = .ok (.ok series)) :
    respTransToProm cfg pfx pj result = .ok (.ok ⟨series⟩) := by
  simp only [respTransToProm]
  rw [if_neg hguard, hschema]
  simp only []
  rw [hfp]
  simp only []
  rw [hsp]

/-- C6 (amended): when the rows span more distinct composite keys than
`SeriesLimit`, `respTransToProm` returns exactly `SeriesLimit` series, the
allocated keys (not the label sets) are pairwise distinct, and the overflow
rows — those whose key is not among the allocated keys, exactly the rows whose
`sampleSeriesIndex` is `-1` — contribute nothing: dropping them from the
input leaves the response unchanged. -/
theorem respTransToProm_series_limit_exact (cfg : PromQuerierConfig)
    (pfx : PrefixKind) (pj : String → List (String × String))
    (result : QuerierResult) (resp : PromReadResponse) (ks : List String)
    (hks : result.values.mapM (rowKey (classifyColumns result.columns).tagIndex
      (allDeepFlowNativeTags (classifyColumns result.columns)
        result.columns.length)) = .ok ks)
    (hover : cfg.seriesLimit < ks.toFinset.card)
    (hres : respTransToProm cfg pfx pj result = .ok (.ok resp)) :
    resp.timeseries.length = cfg.seriesLimit ∧
    (allocKeysFrom cfg.seriesLimit [] ks).Nodup ∧
    respTransToProm cfg pfx pj
      { result with values := ((result.values.zip ks).filter fun p =>
          (keyIndex (allocKeysFrom cfg.seriesLimit [] ks) p.2).isSome).map Prod.fst }
      = .ok (.ok resp) := by
  obtain ⟨mt, st, idxs, series, hguard, hschema, hfp, hsp, hresp⟩ :=
    respTransToProm_ok_inv cfg pfx pj result resp hres
  obtain ⟨ks', hmapM, hEnum, hLen, hSamp, hIdx⟩ :=
    firstPass_spec _ result.values [] ⟨[], [], [], 0⟩ st idxs rfl rfl rfl
      (by intro s hs; exact absurd hs (List.not_mem_nil s)) hfp
  simp only [] at hmapM hEnum hLen hIdx
  have hkk : ks' = ks := by
    have h2 := hks.symm.trans hmapM
    rw [Except.ok.injEq] at h2
    exact h2.symm
  subst hkk
  refine ⟨?_, allocKeysFrom_nodup _ _ _ List.nodup_nil, ?_⟩
  · have h2 := secondPassAux_length mt _ _ _ _ _ hsp
    rw [hresp]
    show series.length = cfg.seriesLimit
    rw [h2, hLen, allocKeysFrom_length_of_card cfg.seriesLimit ks' hover]
  · have hfp2 := firstPass_filter _ result.values ⟨[], [], [], 0⟩ st idxs
      (by show (0 : Int) ≤ 0; omega)
      (by intro p hp; exact absurd hp (List.not_mem_nil p)) hfp
    rw [hIdx, zip_filter_keyIndex] at hfp2
    have hrows : (((result.values.zip ks').filter fun p =>
          (keyIndex (allocKeysFrom cfg.seriesLimit [] ks') p.2).isSome).map Prod.fst)
        = (((result.values.zip idxs).filter fun p => !(p.2 == -1)).map Prod.fst) := by
      rw [hIdx]
      exact (zip_filter_keyIndex (allocKeysFrom cfg.seriesLimit [] ks')
        result.values ks').symm
    have hsp2 : secondPassAux mt (classifyColumns result.columns).metricsIndex.toNat
        (classifyColumns result.columns).timeIndex.toNat
        (((((result.values.zip ks').filter fun p =>
            (keyIndex (allocKeysFrom cfg.seriesLimit [] ks') p.2).isSome).map
              Prod.fst).zip
          ((ks'.map fun k => match keyIndex (allocKeysFrom cfg.seriesLimit [] ks') k with
            | some i => Int.ofNat i
            | none => -1).filter fun x => !(x == -1))).reverse)
        st.seriesArray = .ok (.ok series) := by
      rw [hrows, ← hIdx, zip_filter_neg1, ← List.filter_reverse,
        secondPassAux_filter]
      exact hsp
    have hbuilt := respTransToProm_ok_build cfg pfx pj
      { result with values := ((result.values.zip ks').filter fun p =>
          (keyIndex (allocKeysFrom cfg.seriesLimit [] ks') p.2).isSome).map Prod.fst }
      mt st
      ((ks'.map fun k => match keyIndex (allocKeysFrom cfg.seriesLimit [] ks') k with
        | some i => Int.ofNat i
        | none => -1).filter fun x => !(x == -1))
      series hguard hschema hfp2 hsp2
    rw [hbuilt, hresp]

theorem respTransToProm_series_limit_exact_witness :
    (⟨[⟨[("__name__", "m")], [⟨10000, .raw "1"⟩]⟩,
       ⟨[("__name__", "m")], [⟨9000, .raw "1"⟩]⟩]⟩ :
        PromReadResponse).timeseries.length = 2 ∧
    (allocKeysFrom 2 [] ["2-", "2-0", "2-x"]).Nodup ∧
    respTransToProm ⟨"100", "df_", false, 2⟩ .prefixNone (fun _ => [])
      { overflowResult with values :=
          (((overflowResult.values.zip ["2-", "2-0", "2-x"]).filter (fun p =>
            (keyIndex (allocKeysFrom 2 [] ["2-", "2-0", "2-x"]) p.2).isSome)).map
            Prod.fst) }
      = .ok (.ok ⟨[⟨[("__name__", "m")], [⟨10000, .raw "1"⟩]⟩,
                   ⟨[("__name__", "m")], [⟨9000, .raw "1"⟩]⟩]⟩) :=
  respTransToProm_series_limit_exact ⟨"100", "df_", false, 2⟩ .prefixNone
    (fun _ => []) overflowResult
    ⟨[⟨[("__name__", "m")], [⟨10000, .raw "1"⟩]⟩,
      ⟨[("__name__", "m")], [⟨9000, .raw "1"⟩]⟩]⟩
    ["2-", "2-0", "2-x"] rfl (by decide) rfl

/-- C8 (amended): the composite key of a row is `rowKey` — the native-tag
JSON concatenated with `idx-value` pairs over ALL deepflow native tag columns,
with no zero-value elision — and, for rows whose key was allocated a series
(every row, when the distinct keys fit the limit), two rows are recorded with
the same series index exactly when their keys are equal; rows whose key was
never allocated all share the marker index `-1`. -/
theorem firstPass_same_series_iff (ctx : RespCtx)
    (rows : List (List CellValue)) (st : FPState) (idxs : List Int)
    (ks : List String)
    (hfp : firstPass ctx rows ⟨[], [], [], 0⟩ = .ok (st, idxs))
    (hks : rows.mapM (rowKey ctx.tagIndex ctx.allTags) = .ok ks) :
    idxs = ks.map (fun k =>
      match keyIndex (allocKeysFrom ctx.seriesLimit [] ks) k with
      | some i => Int.ofNat i
      | none => -1) ∧
    ∀ i j ki kj, ks.get? i = some ki → ks.get? j = some kj →
      ki ∈ allocKeysFrom ctx.seriesLimit [] ks →
      kj ∈ allocKeysFrom ctx.seriesLimit [] ks →
      (idxs.get? i = idxs.get? j ↔ ki = kj) := by
  obtain ⟨ks2, hmapM, hEnum, hLen, hSamp, hIdx⟩ :=
    firstPass_spec ctx rows [] ⟨[], [], [], 0⟩ st idxs rfl rfl rfl
      (by intro s hs; exact absurd hs (List.not_mem_nil s)) hfp
  have hkk : ks2 = ks := by
    have h2 := hks.symm.trans hmapM
    rw [Except.ok.injEq] at h2
    exact h2.symm
  subst hkk
  refine ⟨hIdx, ?_⟩
  intro i j ki kj hgi hgj hmi hmj
  have hgi' : idxs.get? i = some (match keyIndex (allocKeysFrom ctx.seriesLimit [] ks2) ki with
      | some a => Int.ofNat a
      | none => -1) := by
    rw [hIdx, List.get?_map, hgi]
    rfl
  have hgj' : idxs.get? j = some (match keyIndex (allocKeysFrom ctx.seriesLimit [] ks2) kj with
      | some a => Int.ofNat a
      | none => -1) := by
    rw [hIdx, List.get?_map, hgj]
    rfl
  obtain ⟨a, ha⟩ : ∃ a, keyIndex (allocKeysFrom ctx.seriesLimit [] ks2) ki = some a := by
    cases h : keyIndex (allocKeysFrom ctx.seriesLimit [] ks2) ki with
    | none => exact absurd hmi ((keyIndex_none_iff _ ki).mp h)
    | some a => exact ⟨a, rfl⟩
  obtain ⟨b, hb⟩ : ∃ b, keyIndex (allocKeysFrom ctx.seriesLimit [] ks2) kj = some b := by
    cases h : keyIndex (allocKeysFrom ctx.seriesLimit [] ks2) kj with
    | none => exact absurd hmj ((keyIndex_none_iff _ kj).mp h)
    | some b => exact ⟨b, rfl⟩
  rw [hgi', hgj', ha, hb]
  constructor
  · intro he
    have hab : a = b := by
      rw [Option.some.injEq] at he
      simpa using he
    obtain ⟨hlta, hgeta⟩ := keyIndex_get _ ki a ha
    obtain ⟨hltb, hgetb⟩ := keyIndex_get _ kj b hb
    subst hab
    rw [← hgeta, ← hgetb]
  · intro he
    rw [he] at ha
    rw [ha] at hb
    rw [Option.some.injEq] at hb
    rw [hb]

theorem firstPass_same_series_iff_witness :
    ([(0 : Int), 1] = (["2-0", "2-"] : List String).map (fun k =>
      match keyIndex (allocKeysFrom 10 [] ["2-0", "2-"]) k with
      | some i => Int.ofNat i
      | none => -1) ∧
    ∀ i j ki kj, (["2-0", "2-"] : List String).get? i = some ki →
      (["2-0", "2-"] : List String).get? j = some kj →
      ki ∈ allocKeysFrom 10 [] ["2-0", "2-"] →
      kj ∈ allocKeysFrom 10 [] ["2-0", "2-"] →
      (([(0 : Int), 1]).get? i = ([(0 : Int), 1]).get? j ↔ ki = kj)) :=
  firstPass_same_series_iff
    ⟨.prefixNone, "df_", (fun _ => []), ["metrics.m", "timestamp", "c"],
     -1, "m", [2], 10⟩
    zeroTagResult.values
    ⟨[("2-0", 0), ("2-", 1)],
     [⟨[("__name__", "m")], []⟩, ⟨[("__name__", "m")], []⟩], [1, 1], 2⟩
    [0, 1] ["2-0", "2-"] (by rfl) (by rfl)

theorem appendSampleAt_mem (series : List PromSeries) (idx : Nat)
    (smp : PromSample) (out : List PromSeries)
    (h : appendSampleAt series idx smp = .ok out) :
    ∀ x ∈ out, x ∈ series ∨
      ∃ y ∈ series, x = { y with samples := y.samples ++ [smp] } := by
  induction series generalizing idx out with
  | nil => exact absurd h (by simp [appendSampleAt])
  | cons hd tl ih =>
    cases idx with
    | zero =>
      rw [appendSampleAt, Except.ok.injEq] at h
      intro x hx
      rw [← h] at hx
      rcases List.mem_cons.mp hx with he | hm
      · right
        exact ⟨hd, List.mem_cons_self hd tl, he⟩
      · left
        exact List.mem_cons_of_mem hd hm
    | succ n =>
      rw [appendSampleAt] at h
      cases hr : appendSampleAt tl n smp with
      | error p => rw [hr] at h; exact Except.noConfusion h
      | ok tl2 =>
        rw [hr, Except.ok.injEq] at h
        intro x hx
        rw [← h] at hx
        rcases List.mem_cons.mp hx with he | hm
        · left
          rw [he]
          exact List.mem_cons_self hd tl
        · rcases ih n tl2 hr x hm with hin | ⟨y, hy, hxy⟩
          · left
            exact List.mem_cons_of_mem hd hin
          · right
            exact ⟨y, List.mem_cons_of_mem hd hy, hxy⟩

theorem pairwise_zip_fst {α β : Type} {R : α → α → Prop} (l : List α)
    (l2 : List β) (h : List.Pairwise R l) :
    List.Pairwise (fun p q => R p.1 q.1) (l.zip l2) := by
  induction l generalizing l2 with
  | nil => exact List.Pairwise.nil
  | cons a l ih =>
    cases l2 with
    | nil => exact List.Pairwise.nil
    | cons b l2 =>
      obtain ⟨hhead, htail⟩ := List.pairwise_cons.mp h
      rw [List.zip_cons_cons]
      refine List.Pairwise.cons ?_ (ih l2 htail)
      intro q hq
      obtain ⟨q1, q2⟩ := q
      exact hhead q1 (List.of_mem_zip hq).1

/-- The second pass keeps every series' samples sorted (non-strictly) and
within the window, provided the remaining rows are time-ascending and inside
the window and every pending sample precedes the remaining rows. -/
theorem secondPassAux_sorted (metricsType : String)
    (metricsIndex timeIndex : Nat) (lo hi : Int)
    (lst : List (List CellValue × Int)) :
    ∀ series out : List PromSeries,
      secondPassAux metricsType metricsIndex timeIndex lst series =
        .ok (.ok out) →
      List.Pairwise (fun p q => ∀ t u,
        cellAt p.1 timeIndex = .ok (.int t) →
        cellAt q.1 timeIndex = .ok (.int u) → t ≤ u) lst →
      (∀ p ∈ lst, ∀ t, cellAt p.1 timeIndex = .ok (.int t) →
        lo ≤ t * 1000 ∧ t * 1000 ≤ hi) →
      (∀ s ∈ series, List.Pairwise
        (fun a b => a.timestamp ≤ b.timestamp) s.samples) →
      (∀ s ∈ series, ∀ a ∈ s.samples, ∀ p ∈ lst, ∀ t,
        cellAt p.1 timeIndex = .ok (.int t) → a.timestamp ≤ t * 1000) →
      (∀ s ∈ series, ∀ a ∈ s.samples, lo ≤ a.timestamp ∧ a.timestamp ≤ hi) →
      ∀ s ∈ out,
        List.Pairwise (fun a b => a.timestamp ≤ b.timestamp) s.samples ∧
        ∀ a ∈ s.samples, lo ≤ a.timestamp ∧ a.timestamp ≤ hi := by
  induction lst with
  | nil =>
    intro series out hres hpair hbound hsorted hsep hwin
    rw [secondPassAux, Except.ok.injEq, Except.ok.injEq] at hres
    rw [← hres]
    intro s hs
    exact ⟨hsorted s hs, hwin s hs⟩
  | cons p lst ih =>
    obtain ⟨r, sIdx⟩ := p
    intro series out hres hpair hbound hsorted hsep hwin
    rw [List.pairwise_cons] at hpair
    obtain ⟨hrel, hpair2⟩ := hpair
    have hbound2 : ∀ q ∈ lst, ∀ t, cellAt q.1 timeIndex = .ok (.int t) →
        lo ≤ t * 1000 ∧ t * 1000 ≤ hi :=
      fun q hq => hbound q (List.mem_cons_of_mem _ hq)
    have hsep2 : ∀ s ∈ series, ∀ a ∈ s.samples, ∀ q ∈ lst, ∀ t,
        cellAt q.1 timeIndex = .ok (.int t) → a.timestamp ≤ t * 1000 :=
      fun s hs a ha q hq => hsep s hs a ha q (List.mem_cons_of_mem _ hq)
    rw [secondPassAux] at hres
    by_cases hskip : (sIdx == -1) = true
    · rw [if_pos hskip] at hres
      exact ih series out hres hpair2 hbound2 hsorted hsep2 hwin
    · rw [if_neg hskip] at hres
      split at hres
      · exact Except.noConfusion hres
      · split at hres
        · exact Except.noConfusion hres
        · rw [Except.ok.injEq] at hres
          exact Except.noConfusion hres
        · exact ih series out hres hpair2 hbound2 hsorted hsep2 hwin
        · rename_i v hdec
          split at hres
          · exact Except.noConfusion hres
          · rename_i t ht
            split at hres
            · exact Except.noConfusion hres
            · rename_i series2 happ
              refine ih series2 out hres hpair2 hbound2 ?_ ?_ ?_
              · intro s hs
                rcases appendSampleAt_mem series sIdx.toNat ⟨t * 1000, v⟩
                    series2 happ s hs with hin | ⟨y, hy, hxy⟩
                · exact hsorted s hin
                · rw [hxy]
                  show List.Pairwise _ (y.samples ++ [⟨t * 1000, v⟩])
                  rw [List.pairwise_append]
                  refine ⟨hsorted y hy, List.pairwise_singleton _ _, ?_⟩
                  intro a ha b hb
                  rw [List.mem_singleton.mp hb]
                  exact hsep y hy a ha (r, sIdx) (List.mem_cons_self _ _) t ht
              · intro s hs a ha q hq u hu
                rcases appendSampleAt_mem series sIdx.toNat ⟨t * 1000, v⟩
                    series2 happ s hs with hin | ⟨y, hy, hxy⟩
                · exact hsep2 s hin a ha q hq u hu
                · rw [hxy] at ha
                  rcases List.mem_append.mp ha with ha1 | ha2
                  · exact hsep2 y hy a ha1 q hq u hu
                  · rw [List.mem_singleton.mp ha2]
                    show t * 1000 ≤ u * 1000
                    have htu := hrel q hq t u ht hu
                    exact Int.mul_le_mul_of_nonneg_right htu (by norm_num)
              · intro s hs a ha
                rcases appendSampleAt_mem series sIdx.toNat ⟨t * 1000, v⟩
                    series2 happ s hs with hin | ⟨y, hy, hxy⟩
                · exact hwin s hin a ha
                · rw [hxy] at ha
                  rcases List.mem_append.mp ha with ha1 | ha2
                  · exact hwin y hy a ha1
                  · rw [List.mem_singleton.mp ha2]
                    exact hbound (r, sIdx) (List.mem_cons_self _ _) t ht
          · exact Except.noConfusion hres

/-- C7 (amended): when the rows come back time-descending (non-strictly, as
`ORDER BY timestamp desc` yields) with second-granularity timestamps inside
`[startTime, endTime]`, every series of the response has its samples sorted
non-strictly ascending by timestamp — equal timestamps are possible — and
every sample timestamp lies in `[1000 * startTime, 1000 * endTime]`
milliseconds, the second-truncated window rather than `[StartMs, EndMs]`. -/
theorem respTransToProm_samples_sorted (cfg : PromQuerierConfig)
    (pfx : PrefixKind) (pj : String → List (String × String))
    (result : QuerierResult) (resp : PromReadResponse)
    (startTime endTime : Int)
    (hres : respTransToProm cfg pfx pj result = .ok (.ok resp))
    (hdesc : List.Pairwise (fun r1 r2 => ∀ t u,
      cellAt r1 (classifyColumns result.columns).timeIndex.toNat = .ok (.int t) →
      cellAt r2 (classifyColumns result.columns).timeIndex.toNat = .ok (.int u) →
      u ≤ t) result.values)
    (hwin : ∀ r ∈ result.values, ∀ t,
      cellAt r (classifyColumns result.columns).timeIndex.toNat = .ok (.int t) →
      startTime ≤ t ∧ t ≤ endTime) :
    ∀ s ∈ resp.timeseries,
      List.Pairwise (fun a b => a.timestamp ≤ b.timestamp) s.samples ∧
      ∀ a ∈ s.samples,
        1000 * startTime ≤ a.timestamp ∧ a.timestamp ≤ 1000 * endTime := by
  obtain ⟨mt, st, idxs, series, hguard, hschema, hfp, hsp, hresp⟩ :=
    respTransToProm_ok_inv cfg pfx pj result resp hres
  obtain ⟨ks, hmapM, hEnum, hLen, hSamp, hIdx⟩ :=
    firstPass_spec _ result.values [] ⟨[], [], [], 0⟩ st idxs rfl rfl rfl
      (by intro s hs; exact absurd hs (List.not_mem_nil s)) hfp
  have hpairL : List.Pairwise (fun p q : List CellValue × Int => ∀ t u,
      cellAt p.1 (classifyColumns result.columns).timeIndex.toNat = .ok (.int t) →
      cellAt q.1 (classifyColumns result.columns).timeIndex.toNat = .ok (.int u) →
      t ≤ u) ((result.values.zip idxs).reverse) := by
    rw [List.pairwise_reverse]
    refine List.Pairwise.imp ?_ (pairwise_zip_fst result.values idxs hdesc)
    intro p q hpq t u htc huc
    exact hpq u t huc htc
  have hboundL : ∀ p ∈ (result.values.zip idxs).reverse, ∀ t,
      cellAt p.1 (classifyColumns result.columns).timeIndex.toNat = .ok (.int t) →
      1000 * startTime ≤ t * 1000 ∧ t * 1000 ≤ 1000 * endTime := by
    intro p hp t htc
    have hmem : p.1 ∈ result.values := by
      rw [List.mem_reverse] at hp
      obtain ⟨p1, p2⟩ := p
      exact (List.of_mem_zip hp).1
    have := hwin p.1 hmem t htc
    omega
  have hall := secondPassAux_sorted mt
    (classifyColumns result.columns).metricsIndex.toNat
    (classifyColumns result.columns).timeIndex.toNat
    (1000 * startTime) (1000 * endTime)
    ((result.values.zip idxs).reverse) st.seriesArray series hsp hpairL hboundL
    (by
      intro s hs
      rw [hSamp s hs]
      exact List.Pairwise.nil)
    (by
      intro s hs a ha
      rw [hSamp s hs] at ha
      exact absurd ha (List.not_mem_nil a))
    (by
      intro s hs a ha
      rw [hSamp s hs] at ha
      exact absurd ha (List.not_mem_nil a))
  rw [hresp]
  exact hall

theorem respTransToProm_samples_sorted_witness :
    List.Pairwise (fun a b : PromSample => a.timestamp ≤ b.timestamp)
      [⟨1000, .raw "2"⟩, ⟨1000, .raw "1"⟩] ∧
    ∀ a ∈ [(⟨1000, .raw "2"⟩ : PromSample), ⟨1000, .raw "1"⟩],
      1000 * (1 : Int) ≤ a.timestamp ∧ a.timestamp ≤ 1000 * (1 : Int) :=
  respTransToProm_samples_sorted ⟨"100", "df_", false, 10⟩ .prefixNone
    (fun _ => []) tieResult
    ⟨[⟨[("c", "x"), ("__name__", "m")],
      [⟨1000, .raw "2"⟩, ⟨1000, .raw "1"⟩]⟩]⟩ 1 1 rfl
    (by
      refine List.Pairwise.cons ?_ (List.pairwise_singleton _ _)
      intro r2 hr2 t u ht hu
      rw [List.mem_singleton.mp hr2] at hu
      have h1 : (Except.ok (CellValue.int 1) : Except GoPanic CellValue) =
          .ok (.int t) := ht
      have h2 : (Except.ok (CellValue.int 1) : Except GoPanic CellValue) =
          .ok (.int u) := hu
      have e1 : (1 : Int) = t := by simpa using h1
      have e2 : (1 : Int) = u := by simpa using h2
      omega)
    (by
      intro r hr t ht
      rcases List.mem_cons.mp hr with he | hr2
      · rw [he] at ht
        have h1 : (Except.ok (CellValue.int 1) : Except GoPanic CellValue) =
            .ok (.int t) := ht
        have e1 : (1 : Int) = t := by simpa using h1
        omega
      · rw [List.mem_singleton.mp hr2] at ht
        have h1 : (Except.ok (CellValue.int 1) : Except GoPanic CellValue) =
            .ok (.int t) := ht
        have e1 : (1 : Int) = t := by simpa using h1
        omega)
    ⟨[("c", "x"), ("__name__", "m")], [⟨1000, .raw "2"⟩, ⟨1000, .raw "1"⟩]⟩
    (List.mem_singleton_self _)

/-- C10 counterexample: `"[]"` is valid JSON with no object key anywhere, so
the claim predicts nil, but `json.Unmarshal` into `map[string]interface\x7b\x7d`
rejects every document whose top level is not an object: `CheckJSONParam`
returns the not-a-valid-JSON error; top-level `null`, in contrast, is
accepted. -/
theorem CheckJSONParam_top_level_array_rejected :
    CheckJSONParam (some (.arr .nil)) (.struct .nil) =
      some "not a valid JSON string" ∧
    getAllKeys (.arr .nil) = [] ∧
    CheckJSONParam (some .null) (.struct .nil) = none :=
  ⟨rfl, rfl, rfl⟩

/-- C10 (amended): `CheckJSONParam` returns nil exactly when the document is
a JSON object or null whose object keys — flattened across every nesting
depth — are all among the flattened json tags of `v`'s type: the check
ignores nesting structure on both sides. Over a well-formed document the
result is precisely the first key (in the model's document order; Go's map
iteration order is unspecified) without a matching tag, reported as
`rogue field(<key>)`. -/
theorem CheckJSONParam_iff (doc : Option Json) (v : GoType) :
    (CheckJSONParam doc v = none ↔
      ∃ j, doc = some j ∧ (j = .null ∨ ∃ kvs, j = .obj kvs) ∧
        ∀ k ∈ getAllKeys j, k ∈ GetJsonTags v) ∧
    (∀ j, doc = some j → (j = .null ∨ ∃ kvs, j = .obj kvs) →
      CheckJSONParam doc v =
        ((getAllKeys j).find? fun k => !((GetJsonTags v).contains k)).map
          (fun k => "rogue field(" ++ k ++ ")")) := by
  constructor
  · constructor
    · intro h
      unfold CheckJSONParam at h
      cases hk : GetAllKeys doc with
      | error e =>
        rw [hk] at h
        simp only [] at h
        exact Option.noConfusion h
      | ok keys =>
        rw [hk] at h
        simp only [] at h
        cases hf : keys.find? (fun k => !((GetJsonTags v).contains k)) with
        | some k =>
          rw [hf] at h
          simp only [] at h
          exact Option.noConfusion h
        | none =>
          have hall : ∀ k ∈ keys, k ∈ GetJsonTags v := by
            intro k hkm
            have hnp := List.find?_eq_none.mp hf k hkm
            have hc : (GetJsonTags v).contains k = true := by
              cases hb : (GetJsonTags v).contains k
              · exact absurd (by rw [hb]; rfl) hnp
              · rfl
            exact List.elem_iff.mp hc
          cases doc with
          | none => rw [GetAllKeys] at hk; exact Except.noConfusion hk
          | some j =>
            cases j with
            | null =>
              rw [GetAllKeys, Except.ok.injEq] at hk
              refine ⟨.null, rfl, Or.inl rfl, ?_⟩
              intro k hkm
              exact absurd hkm (List.not_mem_nil k)
            | obj kvs =>
              rw [GetAllKeys, Except.ok.injEq] at hk
              refine ⟨.obj kvs, rfl, Or.inr ⟨kvs, rfl⟩, ?_⟩
              intro k hkm
              have hkm2 : k ∈ goObjKeys kvs := hkm
              rw [hk] at hkm2
              exact hall k hkm2
            | boolean b => simp [GetAllKeys] at hk
            | num s => simp [GetAllKeys] at hk
            | str s => simp [GetAllKeys] at hk
            | arr xs => simp [GetAllKeys] at hk
    · rintro ⟨j, rfl, hshape, hsub⟩
      rcases hshape with rfl | ⟨kvs, rfl⟩
      · rfl
      · unfold CheckJSONParam GetAllKeys
        simp only []
        cases hf : (goObjKeys kvs).find? (fun k => !((GetJsonTags v).contains k)) with
        | none => rfl
        | some k =>
          exfalso
          have hkmem := List.mem_of_find?_eq_some hf
          have hkp := List.find?_some hf
          have hmem : k ∈ GetJsonTags v := hsub k hkmem
          have hc : (GetJsonTags v).contains k = true := List.elem_iff.mpr hmem
          rw [hc] at hkp
          exact absurd hkp (by decide)
  · rintro j rfl hshape
    rcases hshape with rfl | ⟨kvs, rfl⟩
    · rfl
    · unfold CheckJSONParam GetAllKeys
      simp only []
      cases hf : (goObjKeys kvs).find? (fun k => !((GetJsonTags v).contains k)) with
      | none =>
        have hf2 : (getAllKeys (.obj kvs)).find?
            (fun k => !((GetJsonTags v).contains k)) = none := hf
        rw [hf2]
        rfl
      | some k =>
        have hf2 : (getAllKeys (.obj kvs)).find?
            (fun k => !((GetJsonTags v).contains k)) = some k := hf
        rw [hf2]
        rfl
